import Mathlib

/-!
Verification of the Lazor puzzle solver (src/lazor.py).

The embedding below translates the core of the program into Lean:

* `Block`, `Laser` mirror the classes of the same names.
* A grid is a list of rows of blocks, as in `Grid.grid` in the source;
  `get_block`, `set_block`, `is_within_bounds`, `find_empty_positions`
  mirror the methods of the `Grid` class.  Python indexes `grid[y][x]`;
  all call sites in the program guard indices with `is_within_bounds`
  (or draw them from `find_empty_positions`), so the `Int.toNat`
  conversion used here agrees with the source on every reachable call.
* `laser_step` is the body of the `while steps < MAX_STEPS` loop of
  `LazorGame.calculate_laser_path`, and `trace_loop` is the loop itself,
  with the step counter as structural fuel.  `calculate_laser_path` in
  the source takes a list of lasers, but every call site passes a
  singleton list; the embedding takes the single laser.
* `process_laser_paths` is `LazorGame.process_laser_paths`.  Its
  `while laser_queue:` loop has no termination guarantee in the source,
  so the embedding takes an explicit fuel argument and returns
  `Option.none` when the fuel is exhausted before the queue empties:
  the source loops forever exactly when every fuel returns
  `Option.none` here.
* `all_possible_configs`, `place_blocks_in_grid`, `solve` mirror the
  corresponding `LazorGame` methods; `combinations` and
  `permutations_len` are `itertools.combinations` / `itertools.permutations`
  with the selection length given first.
* `read_bff_grid` is the grid-section part of `read_bff_file`: it
  expands each character row and pads the result with fixed `'none'`
  rows and columns.
-/

inductive BlockType where
  | empty
  | none
  | reflect
  | opq
  | refract
  | laser
deriving DecidableEq

/-- A block of the grid: the `block_type` string of the source becomes the
`BlockType` tag (the source's string for `BlockType.opq` is the word that in
Lean is a reserved keyword, the absorbing block `'B'`). -/
structure Block where
  block_type : BlockType
  fixed : Bool
deriving DecidableEq

/-- The fixed interstitial padding block `Block('none', fixed=True)`. -/
def noneBlock : Block := ⟨BlockType.none, true⟩

/-- The laser-trace block `Block('laser', fixed=True)` written by
`process_laser_paths`. -/
def laserBlock : Block := ⟨BlockType.laser, true⟩

/-- `Block.is_empty`: an empty, movable position. -/
def Block.is_empty (b : Block) : Bool :=
  b.block_type == BlockType.empty && !b.fixed

abbrev GridRep := List (List Block)

abbrev Pos := Int × Int

/-- `Laser`: position and direction, all Python ints. -/
structure Laser where
  x : Int
  y : Int
  vx : Int
  vy : Int
deriving DecidableEq

/-- `Laser.move`: advance the position by the direction vector. -/
def Laser.move (l : Laser) : Laser :=
  ⟨l.x + l.vx, l.y + l.vy, l.vx, l.vy⟩

/-- `Laser.refract_x`: a new laser at the same position with `vx` reversed. -/
def Laser.refract_x (l : Laser) : Laser :=
  ⟨l.x, l.y, -l.vx, l.vy⟩

/-- `Laser.refract_y`: a new laser at the same position with `vy` reversed. -/
def Laser.refract_y (l : Laser) : Laser :=
  ⟨l.x, l.y, l.vx, -l.vy⟩

/-- `grid[y][x]` on Nat indices, with the padding block as junk value for
out-of-range reads (all reachable reads are range-checked first). -/
def get_cell (g : GridRep) (x y : Nat) : Block :=
  (g.getD y []).getD x noneBlock

/-- `Grid.get_block`, called with already bounds-checked coordinates. -/
def get_block (g : GridRep) (x y : Int) : Block :=
  get_cell g x.toNat y.toNat

/-- `Grid.set_block`: `self.grid[y][x] = block`. -/
def set_block (g : GridRep) (x y : Int) (b : Block) : GridRep :=
  g.set y.toNat ((g.getD y.toNat []).set x.toNat b)

/-- `Grid.is_within_bounds`: `0 <= x < len(grid[0]) and 0 <= y < len(grid)`. -/
def is_within_bounds (g : GridRep) (x y : Int) : Bool :=
  decide (0 ≤ x) && decide (x < ((g.headD []).length : Int)) &&
  decide (0 ≤ y) && decide (y < (g.length : Int))

/-- `Grid.find_empty_positions`: row-major scan for empty movable cells. -/
def find_empty_positions (g : GridRep) : List Pos :=
  (List.range g.length).flatMap (fun y =>
    ((List.range (g.headD []).length).filter
      (fun x => (get_cell g x y).is_empty)).map
      (fun x => (Int.ofNat x, Int.ofNat y)))

/-- Result of one iteration of the stepping loop in `calculate_laser_path`:
`halt` is a `break` (out of bounds on either inspected neighbour, or the
absorbing branch), `stuck` is an iteration in which no branch of the
`if/elif` chain fires (the laser neither moves nor records), and
`moved l sp` is an iteration that stepped the laser to state `l`, recorded
its new position, and (for the refracting branches) produced spawn `sp`. -/
inductive StepRes where
  | halt
  | stuck
  | moved (l : Laser) (spawn : Option Laser)
deriving DecidableEq

/-- One iteration of the `while steps < MAX_STEPS` loop of
`calculate_laser_path`: inspect the X neighbour `(x+vx, y)` and the Y
neighbour `(x, y+vy)` (the locals `x_block` / `y_block` of the source are
inlined) and apply the first matching branch of the `if/elif` chain. -/
def laser_step (g : GridRep) (l : Laser) : StepRes :=
  if ¬ (is_within_bounds g (l.x + l.vx) l.y = true) then StepRes.halt
  else if ¬ (is_within_bounds g l.x (l.y + l.vy) = true) then StepRes.halt
  else if (get_block g (l.x + l.vx) l.y).block_type = BlockType.reflect then
    StepRes.moved (Laser.move ⟨l.x, l.y, -l.vx, l.vy⟩) Option.none
  else if (get_block g l.x (l.y + l.vy)).block_type = BlockType.reflect then
    StepRes.moved (Laser.move ⟨l.x, l.y, l.vx, -l.vy⟩) Option.none
  else if (get_block g (l.x + l.vx) l.y).block_type = BlockType.opq ∨
      (get_block g l.x (l.y + l.vy)).block_type = BlockType.opq then
    StepRes.halt
  else if (get_block g (l.x + l.vx) l.y).block_type = BlockType.refract then
    StepRes.moved l.move (some l.refract_x)
  else if (get_block g l.x (l.y + l.vy)).block_type = BlockType.refract then
    StepRes.moved l.move (some l.refract_y)
  else if (get_block g (l.x + l.vx) l.y).block_type = BlockType.empty ∨
      (get_block g l.x (l.y + l.vy)).block_type = BlockType.empty then
    StepRes.moved l.move Option.none
  else if (get_block g (l.x + l.vx) l.y).block_type = BlockType.none ∨
      (get_block g l.x (l.y + l.vy)).block_type = BlockType.none then
    StepRes.moved l.move Option.none
  else
    StepRes.stuck

/-- The stepping loop of `calculate_laser_path`, with the remaining step
budget as fuel, the recorded positions and the spawned lasers as
accumulators.  After a `moved` or `stuck` iteration the loop re-checks
`laser.vx == 0 and laser.vy == 0` and breaks when both vanish. -/
def trace_loop (g : GridRep) : Nat → Laser → List Pos → List Laser →
    List Pos × List Laser
  | 0, _, acc, sp => (acc, sp)
  | steps+1, l, acc, sp =>
    match laser_step g l with
    | StepRes.halt => (acc, sp)
    | StepRes.stuck =>
      if l.vx = 0 ∧ l.vy = 0 then (acc, sp) else trace_loop g steps l acc sp
    | StepRes.moved l2 spawn =>
      let acc2 := acc ++ [(l2.x, l2.y)]
      let sp2 := sp ++ spawn.toList
      if l2.vx = 0 ∧ l2.vy = 0 then (acc2, sp2)
      else trace_loop g steps l2 acc2 sp2

def MAX_STEPS : Nat := 500

/-- `LazorGame.calculate_laser_path` for the single laser every call site
passes: the recorded path (starting with the laser's initial position) and
the lasers spawned by refraction. -/
def calculate_laser_path (g : GridRep) (l : Laser) : List Pos × List Laser :=
  trace_loop g MAX_STEPS l [(l.x, l.y)] []

/-- The painting step of `process_laser_paths` for one recorded point:
inside bounds, a cell holding an `'empty'` or `'none'` block is overwritten
with the fixed `'laser'` block. -/
def paint_cell (g : GridRep) (p : Pos) : GridRep :=
  if is_within_bounds g p.1 p.2 = true then
    if (get_block g p.1 p.2).block_type = BlockType.empty ∨
        (get_block g p.1 p.2).block_type = BlockType.none then
      set_block g p.1 p.2 laserBlock
    else g
  else g

/-- Painting a whole recorded path, point by point in order. -/
def paint_grid (g : GridRep) : List Pos → GridRep
  | [] => g
  | p :: ps => paint_grid (paint_cell g p) ps

/-- `LazorGame.process_laser_paths`, with explicit fuel for its unbounded
`while laser_queue:` loop.  One unit of fuel is one popped laser: its path
is traced, the in-bounds points of the path are added to the hit set (kept
here as a list, read through membership) and painted into the grid, and the
spawned lasers are appended to the queue.  `Option.none` means the fuel ran
out with a non-empty queue; the source diverges exactly when this happens
for every fuel. -/
def process_laser_paths : Nat → GridRep → List Laser → List Pos →
    Option (GridRep × List Pos)
  | _, g, [], hit => some (g, hit)
  | 0, _, _ :: _, _ => Option.none
  | fuel+1, g, l :: rest, hit =>
    process_laser_paths fuel
      (paint_grid g (calculate_laser_path g l).1)
      (rest ++ (calculate_laser_path g l).2)
      (hit ++ (calculate_laser_path g l).1.filter
        (fun p => is_within_bounds g p.1 p.2))

/-- The hit-point list of a fueled run (empty for an exhausted run). -/
def hits_of : Option (GridRep × List Pos) → List Pos
  | some r => r.2
  | Option.none => []

/-- The boolean `process_laser_paths` returns:
`self.points.issubset(hit_points)`. -/
def process_covers (fuel : Nat) (g : GridRep) (lasers : List Laser)
    (points : List Pos) : Option Bool :=
  (process_laser_paths fuel g lasers []).map
    (fun r => points.all (fun p => decide (p ∈ r.2)))

/-- The available-block dictionary `{'A': _, 'B': _, 'C': _}` (iteration
order `A`, `B`, `C`, the insertion order used by `read_bff_file`). -/
structure AvailableBlocks where
  A : Nat
  B : Nat
  C : Nat
deriving DecidableEq

/-- The `block_list` built at the start of `all_possible_configs`: one
letter per available block, in dictionary order. -/
def block_letters (bd : AvailableBlocks) : List Char :=
  List.replicate bd.A 'A' ++ List.replicate bd.B 'B' ++ List.replicate bd.C 'C'

/-- The `all_same_type` test.  Python evaluates `block_list[0]` lazily
inside `all(...)`, so an empty block list yields `True` without indexing. -/
def all_same_type : List Char → Bool
  | [] => true
  | c :: cs => (c :: cs).all (fun d => d == c)

/-- `itertools.combinations l k` (index-order combinations). -/
def combinations {α : Type} : Nat → List α → List (List α)
  | 0, _ => [[]]
  | _+1, [] => []
  | k+1, x :: xs =>
    (combinations k xs).map (fun t => x :: t) ++ combinations (k+1) xs

/-- All ways of selecting one element of a list, paired with the remaining
elements in order (the selection pattern of `itertools.permutations`). -/
def selections {α : Type} : List α → List (α × List α)
  | [] => []
  | x :: xs => (x, xs) :: (selections xs).map (fun pr => (pr.1, x :: pr.2))

/-- `itertools.permutations l k`: length-`k` ordered selections without
repetition, in the order itertools produces them. -/
def permutations_len {α : Type} : Nat → List α → List (List α)
  | 0, _ => [[]]
  | k+1, l =>
    (selections l).flatMap
      (fun pr => (permutations_len k pr.2).map (fun t => pr.1 :: t))

/-- `LazorGame.all_possible_configs`: combinations of empty positions when
all budgeted blocks share one type, permutations otherwise. -/
def all_possible_configs (g : GridRep) (bd : AvailableBlocks) :
    List (List Pos) :=
  if all_same_type (block_letters bd) then
    combinations (block_letters bd).length (find_empty_positions g)
  else
    permutations_len (block_letters bd).length (find_empty_positions g)

/-- The `block_list` of `place_blocks_in_grid`: the letters mapped through
`block_type_mapping` in dictionary order. -/
def placement_kinds (bd : AvailableBlocks) : List BlockType :=
  List.replicate bd.A BlockType.reflect ++
  List.replicate bd.B BlockType.opq ++
  List.replicate bd.C BlockType.refract

/-- `LazorGame.place_blocks_in_grid`: zip the configuration with the kind
list and `set_block` each pair (new blocks are movable, `fixed=False`). -/
def place_blocks_in_grid (g : GridRep) (bd : AvailableBlocks)
    (config : List Pos) : GridRep :=
  (config.zip (placement_kinds bd)).foldl
    (fun g2 pk => set_block g2 pk.1.1 pk.1.2 ⟨pk.2, false⟩) g

/-- The candidate loop of `LazorGame.solve` over the remaining
configurations.  The source returns `True` after the first configuration
whose simulation covers every target and `False` when the list is
exhausted; the embedding returns the winning configuration itself
(`some (some cfg)`), `some Option.none` for the ordinary no-solution
return, and `Option.none` when the fueled simulation of some attempted
configuration did not finish. -/
def solve_go (fuel : Nat) (g : GridRep) (bd : AvailableBlocks)
    (lasers : List Laser) (points : List Pos) :
    List (List Pos) → Option (Option (List Pos))
  | [] => some Option.none
  | cfg :: rest =>
    match process_covers fuel (place_blocks_in_grid g bd cfg) lasers points with
    | Option.none => Option.none
    | some true => some (some cfg)
    | some false => solve_go fuel g bd lasers points rest

/-- `LazorGame.solve`: enumerate the configurations of the pristine grid
and try them in order.  Grid and lasers are reset between iterations in the
source, which the pure embedding reflects by always placing into `g`. -/
def solve (fuel : Nat) (g : GridRep) (bd : AvailableBlocks)
    (lasers : List Laser) (points : List Pos) : Option (Option (List Pos)) :=
  solve_go fuel g bd lasers points (all_possible_configs g bd)

/-- The expansion of one grid character in `read_bff_file`: each of the
five legal characters contributes its block followed by a padding block;
any other character contributes nothing. -/
def expand_char : Char → List Block
  | 'x' => [noneBlock, noneBlock]
  | 'o' => [⟨BlockType.empty, false⟩, noneBlock]
  | 'A' => [⟨BlockType.reflect, true⟩, noneBlock]
  | 'B' => [⟨BlockType.opq, true⟩, noneBlock]
  | 'C' => [⟨BlockType.refract, true⟩, noneBlock]
  | _ => []

/-- The block a legal grid character stands for. -/
def cell_block (c : Char) : Block :=
  (expand_char c).headD noneBlock

/-- The five characters accepted inside the grid section. -/
def good_char (c : Char) : Bool :=
  c == 'x' || c == 'o' || c == 'A' || c == 'B' || c == 'C'

/-- One grid row of `read_bff_file`: a leading padding block, then the
expansion of each character. -/
def build_row (cs : List Char) : List Block :=
  noneBlock :: cs.flatMap expand_char

/-- The grid part of `read_bff_file`: build each row, then pad with a
full row of `'none'` blocks on top and after every built row. -/
def read_bff_grid (rows : List (List Char)) : GridRep :=
  let g := rows.map build_row
  List.replicate (g.headD []).length noneBlock ::
    g.flatMap (fun r => [r, List.replicate r.length noneBlock])

/-! ### Small list helpers -/

theorem flatMap_nil_of {α β : Type} (l : List α) (f : α → List β)
    (h : ∀ a ∈ l, f a = []) : l.flatMap f = [] := by
  induction l with
  | nil => rfl
  | cons x xs ih =>
    simp only [List.flatMap_cons, h x (List.mem_cons_self x xs)]
    exact ih (fun a ha => h a (List.mem_cons_of_mem x ha))

theorem length_block_letters (bd : AvailableBlocks) :
    (block_letters bd).length = bd.A + bd.B + bd.C := by
  simp [block_letters, Nat.add_assoc]

/-! ### The enumerator on out-of-range lengths -/

theorem combinations_nil_of_lt {α : Type} :
    ∀ (l : List α) (k : Nat), l.length < k → combinations k l = []
  | [], k, h => by
    match k, h with
    | k+1, _ => rfl
  | x :: xs, k, h => by
    match k, h with
    | k+1, h =>
      have h1 : xs.length < k := by simp at h; omega
      have h2 : xs.length < k + 1 := by omega
      simp [combinations, combinations_nil_of_lt xs k h1,
        combinations_nil_of_lt xs (k+1) h2]

theorem selections_snd_length {α : Type} :
    ∀ (l : List α), ∀ pr ∈ selections l, pr.2.length + 1 = l.length
  | [], pr, h => by cases h
  | x :: xs, pr, h => by
    simp only [selections, List.mem_cons] at h
    rcases h with h | h
    · subst h; rfl
    · rcases List.mem_map.mp h with ⟨q, hq, rfl⟩
      have := selections_snd_length xs q hq
      simp only [List.length_cons]
      omega

theorem permutations_len_nil_of_lt {α : Type} :
    ∀ (k : Nat) (l : List α), l.length < k → permutations_len k l = []
  | k+1, l, h => by
    simp only [permutations_len]
    apply flatMap_nil_of
    intro pr hpr
    have hlen := selections_snd_length l pr hpr
    have : pr.2.length < k := by omega
    simp [permutations_len_nil_of_lt k pr.2 this]

/-- C9: with an all-zero budget the enumerator returns exactly the single
empty configuration (the all-same-type test is vacuously true and
length-0 combinations yield one empty tuple, with no indexing error), and
`solve` therefore just simulates the unmodified grid: it succeeds exactly
when the emitters alone already cover every target point. -/
theorem spec_C9_zero_budget (g : GridRep) (lasers : List Laser)
    (points : List Pos) (fuel : Nat) :
    all_possible_configs g ⟨0, 0, 0⟩ = [[]] ∧
    solve fuel g ⟨0, 0, 0⟩ lasers points =
      (process_covers fuel g lasers points).map
        (fun b => if b then some [] else Option.none) := by
  have hc : all_possible_configs g ⟨0, 0, 0⟩ = [[]] := by
    simp [all_possible_configs, block_letters, all_same_type, combinations]
  refine ⟨hc, ?_⟩
  unfold solve
  rw [hc]
  have hplace : place_blocks_in_grid g ⟨0, 0, 0⟩ [] = g := rfl
  cases h : process_covers fuel g lasers points with
  | none => simp [solve_go, hplace, h]
  | some b => cases b <;> simp [solve_go, hplace, h]

/-- C10: when the budget total exceeds the number of empty positions, the
enumerator yields no configuration at all, and `solve` returns the
ordinary no-solution value without any error. -/
theorem spec_C10_overfull_budget (g : GridRep) (bd : AvailableBlocks)
    (h : (find_empty_positions g).length < bd.A + bd.B + bd.C) :
    all_possible_configs g bd = [] ∧
    ∀ (fuel : Nat) (lasers : List Laser) (points : List Pos),
      solve fuel g bd lasers points = some Option.none := by
  have hlen : (find_empty_positions g).length < (block_letters bd).length := by
    rw [length_block_letters]; exact h
  have hcfg : all_possible_configs g bd = [] := by
    unfold all_possible_configs
    by_cases hs : all_same_type (block_letters bd) = true
    · simp [hs, combinations_nil_of_lt _ _ hlen]
    · simp [hs, permutations_len_nil_of_lt _ _ hlen]
  refine ⟨hcfg, fun fuel lasers points => ?_⟩
  show solve_go fuel g bd lasers points (all_possible_configs g bd) = _
  rw [hcfg]
  rfl

/-- C10 witness: a parsed 1-cell grid has one empty position; a budget of
two reflect blocks exceeds it, so the enumerator is empty and `solve`
returns the no-solution value. -/
theorem spec_C10_witness :
    all_possible_configs (read_bff_grid [['o']]) ⟨2, 0, 0⟩ = [] ∧
    solve 3 (read_bff_grid [['o']]) ⟨2, 0, 0⟩ [⟨1, 0, 1, 1⟩] [(2, 1)] =
      some Option.none := by
  have h := spec_C10_overfull_budget (read_bff_grid [['o']]) ⟨2, 0, 0⟩
    (by decide)
  exact ⟨h.1, h.2 3 [⟨1, 0, 1, 1⟩] [(2, 1)]⟩

/-! ### Indexing helpers for the padded lattice -/

theorem getD_eq_getElem {α : Type} (l : List α) (i : Nat) (d : α) :
    l.getD i d = (l[i]?).getD d := by
  simp [List.getD]

theorem getD_cons_succ {α : Type} (a : α) (l : List α) (i : Nat) (d : α) :
    (a :: l).getD (i + 1) d = l.getD i d := rfl

theorem getD_replicate {α : Type} :
    ∀ (n i : Nat) (a d : α),
      (List.replicate n a).getD i d = if i < n then a else d
  | 0, i, a, d => by simp
  | n+1, 0, a, d => by simp [List.replicate]
  | n+1, i+1, a, d => by
    simp only [List.replicate, getD_cons_succ, getD_replicate n i a d,
      Nat.add_lt_add_iff_right]

theorem getD_replicate_self {α : Type} (n i : Nat) (a : α) :
    (List.replicate n a).getD i a = a := by
  rw [getD_replicate]
  split <;> rfl

theorem flatMap_congr_mem {α β : Type} :
    ∀ (l : List α) (f h : α → List β), (∀ a ∈ l, f a = h a) →
      l.flatMap f = l.flatMap h
  | [], _, _, _ => rfl
  | x :: xs, f, h, hfh => by
    simp only [List.flatMap_cons, hfh x (List.mem_cons_self x xs),
      flatMap_congr_mem xs f h (fun a ha => hfh a (List.mem_cons_of_mem x ha))]

theorem flatMap_pair_getElem_even {α β : Type} (f h : α → β) :
    ∀ (l : List α) (i : Nat),
      (l.flatMap (fun a => [f a, h a]))[2 * i]? = (l[i]?).map f
  | [], i => by simp
  | x :: xs, 0 => by simp
  | x :: xs, i+1 => by
    have : 2 * (i + 1) = 2 * i + 1 + 1 := by omega
    simp only [List.flatMap_cons, this, List.cons_append,
      List.getElem?_cons_succ, List.nil_append]
    exact flatMap_pair_getElem_even f h xs i

theorem flatMap_pair_getElem_odd {α β : Type} (f h : α → β) :
    ∀ (l : List α) (i : Nat),
      (l.flatMap (fun a => [f a, h a]))[2 * i + 1]? = (l[i]?).map h
  | [], i => by simp
  | x :: xs, 0 => by simp
  | x :: xs, i+1 => by
    have : 2 * (i + 1) + 1 = 2 * i + 1 + 1 + 1 := by omega
    simp only [List.flatMap_cons, this, List.cons_append,
      List.getElem?_cons_succ, List.nil_append]
    exact flatMap_pair_getElem_odd f h xs i

theorem map_sum_const {α : Type} :
    ∀ (l : List α) (f : α → Nat) (c : Nat), (∀ a ∈ l, f a = c) →
      (l.map f).sum = l.length * c
  | [], _, _, _ => by simp
  | x :: xs, f, c, h => by
    simp only [List.map_cons, List.sum_cons, List.length_cons,
      h x (List.mem_cons_self x xs),
      map_sum_const xs f c (fun a ha => h a (List.mem_cons_of_mem x ha))]
    ring

theorem length_flatMap_pair {α β : Type} (f h : α → β) (l : List α) :
    (l.flatMap (fun a => [f a, h a])).length = 2 * l.length := by
  rw [List.length_flatMap,
    map_sum_const l (List.length ∘ fun a => [f a, h a]) 2 (fun a _ => rfl)]
  ring

/-! ### C5: shape of the parsed lattice -/

theorem expand_good (c : Char) (h : good_char c = true) :
    expand_char c = [cell_block c, noneBlock] := by
  simp only [good_char, Bool.or_eq_true, beq_iff_eq] at h
  rcases h with ((((h | h) | h) | h) | h) <;> subst h <;> rfl

theorem build_row_length (cs : List Char)
    (h : ∀ c ∈ cs, good_char c = true) :
    (build_row cs).length = 2 * cs.length + 1 := by
  have hc : cs.flatMap expand_char =
      cs.flatMap (fun c => [cell_block c, noneBlock]) :=
    flatMap_congr_mem cs _ _ (fun c hcm => expand_good c (h c hcm))
  simp only [build_row, List.length_cons, hc,
    length_flatMap_pair cell_block (fun _ => noneBlock) cs]

theorem build_row_getD_odd (cs : List Char) (c : Nat)
    (hgood : ∀ ch ∈ cs, good_char ch = true) (hc : c < cs.length) :
    (build_row cs).getD (2 * c + 1) noneBlock = cell_block (cs.getD c 'x') := by
  have hcg : cs.flatMap expand_char =
      cs.flatMap (fun ch => [cell_block ch, noneBlock]) :=
    flatMap_congr_mem cs _ _ (fun ch hcm => expand_good ch (hgood ch hcm))
  have hcs : cs.getD c 'x' = cs[c] := by
    rw [getD_eq_getElem, List.getElem?_eq_getElem hc]
    rfl
  rw [build_row, hcg, getD_eq_getElem, List.getElem?_cons_succ,
    flatMap_pair_getElem_even cell_block (fun _ => noneBlock) cs c,
    List.getElem?_eq_getElem hc, hcs]
  rfl

theorem build_row_getD_even (cs : List Char) (x : Nat)
    (hgood : ∀ ch ∈ cs, good_char ch = true) (hx : x % 2 = 0) :
    (build_row cs).getD x noneBlock = noneBlock := by
  have hcg : cs.flatMap expand_char =
      cs.flatMap (fun ch => [cell_block ch, noneBlock]) :=
    flatMap_congr_mem cs _ _ (fun ch hcm => expand_good ch (hgood ch hcm))
  match x, hx with
  | 0, _ => rfl
  | x+2, hx =>
    obtain ⟨i, rfl⟩ : ∃ i, x = 2 * i := ⟨x / 2, by omega⟩
    show (build_row cs).getD (2 * i + 1 + 1) noneBlock = noneBlock
    rw [build_row, getD_cons_succ, hcg, getD_eq_getElem,
      flatMap_pair_getElem_odd cell_block (fun _ => noneBlock) cs i]
    cases cs[i]? <;> rfl

theorem padded_getD_odd (rows : List (List Char)) (r : Nat) :
    (read_bff_grid rows).getD (2 * r + 1) [] =
      ((rows[r]?).map build_row).getD [] := by
  show (List.replicate _ noneBlock :: _).getD (2 * r + 1) [] = _
  rw [getD_cons_succ, getD_eq_getElem,
    flatMap_pair_getElem_even (fun a => a) (fun a => List.replicate a.length noneBlock)
      (rows.map build_row) r, List.getElem?_map]
  cases rows[r]? <;> rfl

theorem padded_getD_even_succ (rows : List (List Char)) (j : Nat) :
    (read_bff_grid rows).getD (2 * j + 1 + 1) [] =
      ((rows[j]?).map
        (fun src => List.replicate (build_row src).length noneBlock)).getD [] := by
  show (List.replicate _ noneBlock :: _).getD (2 * j + 1 + 1) [] = _
  rw [getD_cons_succ, getD_eq_getElem,
    flatMap_pair_getElem_odd (fun a => a) (fun a => List.replicate a.length noneBlock)
      (rows.map build_row) j, List.getElem?_map]
  cases rows[j]? <;> rfl

theorem spec_C5_lattice_core (rows : List (List Char)) (M : Nat)
    (hne : rows ≠ [])
    (hM : ∀ r ∈ rows, r.length = M)
    (hgood : ∀ r ∈ rows, ∀ c ∈ r, good_char c = true) :
    (read_bff_grid rows).length = 2 * rows.length + 1 ∧
    (∀ row ∈ read_bff_grid rows, row.length = 2 * M + 1) ∧
    (∀ r c : Nat, r < rows.length → c < M →
      get_cell (read_bff_grid rows) (2 * c + 1) (2 * r + 1) =
        cell_block ((rows.getD r []).getD c 'x')) ∧
    (∀ x y : Nat, x < 2 * M + 1 → y < 2 * rows.length + 1 →
      ¬(x % 2 = 1 ∧ y % 2 = 1) →
      get_cell (read_bff_grid rows) x y = noneBlock) := by
  obtain ⟨r0, rest, rfl⟩ : ∃ r0 rest, rows = r0 :: rest := by
    cases rows with
    | nil => exact absurd rfl hne
    | cons a l => exact ⟨a, l, rfl⟩
  set rows := r0 :: rest with hrows
  have hhead : ((rows.map build_row).headD []).length = 2 * M + 1 := by
    show (build_row r0).length = 2 * M + 1
    rw [build_row_length r0 (hgood r0 (by simp [hrows])),
      hM r0 (by simp [hrows])]
  refine ⟨?_, ?_, ?_, ?_⟩
  · show (List.replicate _ noneBlock :: _).length = _
    rw [List.length_cons,
      length_flatMap_pair (fun a => a) (fun a => List.replicate a.length noneBlock)
        (rows.map build_row), List.length_map]
  · intro row hrow
    rcases List.mem_cons.mp hrow with hrow | hrow
    · subst hrow
      rw [List.length_replicate]
      exact hhead
    · rcases List.mem_flatMap.mp hrow with ⟨a, ha, hmem⟩
      rcases List.mem_map.mp ha with ⟨src, hsrc, rfl⟩
      have hlen : (build_row src).length = 2 * M + 1 := by
        rw [build_row_length src (hgood src hsrc), hM src hsrc]
      rcases List.mem_cons.mp hmem with hrw | hrw
      · subst hrw; exact hlen
      · rcases List.mem_cons.mp hrw with hrw | hrw
        · subst hrw; rw [List.length_replicate]; exact hlen
        · cases hrw
  · intro r c hr hc
    have hsome : rows[r]? = some rows[r] := List.getElem?_eq_getElem hr
    have hmem : rows[r] ∈ rows := List.getElem_mem hr
    have hrgd : rows.getD r [] = rows[r] := by
      rw [getD_eq_getElem, hsome]; rfl
    show ((read_bff_grid rows).getD (2 * r + 1) []).getD (2 * c + 1) noneBlock = _
    rw [padded_getD_odd rows r, hsome, hrgd]
    exact build_row_getD_odd rows[r] c (hgood _ hmem) (by rw [hM _ hmem]; exact hc)
  · intro x y hx hy hpar
    rcases Nat.even_or_odd y with hye | hyo
    · obtain ⟨j, rfl⟩ : ∃ j, y = 2 * j := by
        rcases hye with ⟨j, hj⟩; exact ⟨j, by omega⟩
      match j with
      | 0 =>
        show (List.replicate _ noneBlock).getD x noneBlock = noneBlock
        exact getD_replicate_self _ _ _
      | j+1 =>
        show ((read_bff_grid rows).getD (2 * j + 1 + 1) []).getD x noneBlock = _
        rw [padded_getD_even_succ rows j]
        cases rows[j]? with
        | none => rfl
        | some src => exact getD_replicate_self _ _ _
    · obtain ⟨r, rfl⟩ : ∃ r, y = 2 * r + 1 := by
        rcases hyo with ⟨r, hj⟩; exact ⟨r, by omega⟩
      have hxe : x % 2 = 0 := by omega
      show ((read_bff_grid rows).getD (2 * r + 1) []).getD x noneBlock = _
      rw [padded_getD_odd rows r]
      cases hq : rows[r]? with
      | none => rfl
      | some src =>
        have hmem : src ∈ rows := List.getElem?_mem hq
        show (build_row src).getD x noneBlock = noneBlock
        exact build_row_getD_even src x (hgood src hmem) hxe

/-- C5: `read_bff_file` maps an M-wide, N-tall character grid to a padded
lattice of width `2M+1` and height `2N+1`, every cell off the odd/odd
sublattice is a fixed `'none'` padding block, and the character at source
row `r`, column `c` becomes the block at lattice position `(2c+1, 2r+1)`. -/
theorem spec_C5_lattice (rows : List (List Char)) (M : Nat)
    (hne : rows ≠ [])
    (hM : ∀ r ∈ rows, r.length = M)
    (hgood : ∀ r ∈ rows, ∀ c ∈ r, good_char c = true) :
    (read_bff_grid rows).length = 2 * rows.length + 1 ∧
    (∀ row ∈ read_bff_grid rows, row.length = 2 * M + 1) ∧
    (∀ r c : Nat, r < rows.length → c < M →
      get_cell (read_bff_grid rows) (2 * c + 1) (2 * r + 1) =
        cell_block ((rows.getD r []).getD c 'x')) ∧
    (∀ x y : Nat, x < 2 * M + 1 → y < 2 * rows.length + 1 →
      ¬(x % 2 = 1 ∧ y % 2 = 1) →
      get_cell (read_bff_grid rows) x y = noneBlock) :=
  spec_C5_lattice_core rows M hne hM hgood

/-- C5 witness: a 2-by-2 source grid produces a 5-by-5 lattice whose cell
`(1,1)` is the `'o'` of source cell `(0,0)`, whose cell `(3,3)` is the
`'C'` of source cell `(1,1)`, and whose cell `(2,1)` is interstitial. -/
theorem spec_C5_witness :
    (read_bff_grid [['o', 'x'], ['A', 'C']]).length = 2 * 2 + 1 ∧
    get_cell (read_bff_grid [['o', 'x'], ['A', 'C']]) 1 1 =
      ⟨BlockType.empty, false⟩ ∧
    get_cell (read_bff_grid [['o', 'x'], ['A', 'C']]) 3 3 =
      ⟨BlockType.refract, true⟩ ∧
    get_cell (read_bff_grid [['o', 'x'], ['A', 'C']]) 2 1 = noneBlock := by
  have h := spec_C5_lattice [['o', 'x'], ['A', 'C']] 2 (by decide)
    (by decide) (by decide)
  exact ⟨h.1, h.2.2.1 0 0 (by decide) (by decide),
    h.2.2.1 1 1 (by decide) (by decide),
    h.2.2.2 2 1 (by decide) (by decide) (by decide)⟩

/-! ### C7: counting the enumerated configurations -/

theorem length_combinations {α : Type} :
    ∀ (l : List α) (k : Nat), (combinations k l).length = l.length.choose k
  | l, 0 => by simp [combinations]
  | [], k+1 => by simp [combinations]
  | x :: xs, k+1 => by
    simp only [combinations, List.length_append, List.length_map,
      length_combinations xs k, length_combinations xs (k+1),
      List.length_cons, Nat.choose_succ_succ]

theorem selections_length {α : Type} :
    ∀ (l : List α), (selections l).length = l.length
  | [] => rfl
  | x :: xs => by
    simp [selections, selections_length xs]

theorem selections_perm {α : Type} :
    ∀ (l : List α), ∀ pr ∈ selections l, (pr.1 :: pr.2).Perm l
  | [], pr, h => by cases h
  | x :: xs, pr, h => by
    simp only [selections, List.mem_cons] at h
    rcases h with rfl | h
    · exact List.Perm.refl _
    · rcases List.mem_map.mp h with ⟨q, hq, rfl⟩
      have hp := selections_perm xs q hq
      exact List.Perm.trans (List.Perm.swap x q.1 q.2) (hp.cons x)

theorem length_permutations_len {α : Type} :
    ∀ (k : Nat) (l : List α),
      (permutations_len k l).length = l.length.descFactorial k
  | 0, l => by simp [permutations_len]
  | k+1, l => by
    rw [permutations_len, List.length_flatMap,
      map_sum_const (selections l) _ ((l.length - 1).descFactorial k)
        (fun pr hpr => by
          have hlen := selections_snd_length l pr hpr
          have : pr.2.length = l.length - 1 := by omega
          simp [length_permutations_len k pr.2, this]),
      selections_length]
    cases l with
    | nil => simp
    | cons a t =>
      simp only [List.length_cons, Nat.add_sub_cancel,
        Nat.succ_descFactorial_succ]

theorem combinations_sublist {α : Type} :
    ∀ (l : List α) (k : Nat), ∀ c ∈ combinations k l, c.Sublist l
  | l, 0, c, h => by
    simp only [combinations, List.mem_singleton] at h
    subst h
    exact List.nil_sublist l
  | [], k+1, c, h => by exact absurd h (by simp [combinations])
  | x :: xs, k+1, c, h => by
    simp only [combinations, List.mem_append, List.mem_map] at h
    rcases h with ⟨t, ht, rfl⟩ | h
    · exact (combinations_sublist xs k t ht).cons₂ x
    · exact (combinations_sublist xs (k+1) c h).cons x

theorem permutations_len_mem {α : Type} :
    ∀ (k : Nat) (l : List α) (p : List α), p ∈ permutations_len k l →
      (∀ a ∈ p, a ∈ l) ∧ (l.Nodup → p.Nodup)
  | 0, l, p, h => by
    simp only [permutations_len, List.mem_singleton] at h
    subst h
    exact ⟨by simp, fun _ => List.nodup_nil⟩
  | k+1, l, p, h => by
    simp only [permutations_len, List.mem_flatMap, List.mem_map] at h
    rcases h with ⟨pr, hpr, t, ht, rfl⟩
    have hperm := selections_perm l pr hpr
    have hih := permutations_len_mem k pr.2 t ht
    constructor
    · intro a ha
      rcases List.mem_cons.mp ha with rfl | ha
      · exact hperm.subset (List.mem_cons_self _ _)
      · exact hperm.subset (List.mem_cons_of_mem _ (hih.1 a ha))
    · intro hnd
      have hnd2 : (pr.1 :: pr.2).Nodup := hperm.nodup_iff.mpr hnd
      rcases List.nodup_cons.mp hnd2 with ⟨hnotin, hnd3⟩
      exact List.nodup_cons.mpr ⟨fun hc => hnotin (hih.1 _ hc), hih.2 hnd3⟩

/-! ### Cell-level update lemmas -/

theorem headD_eq_getD {α : Type} (l : List α) (d : α) : l.headD d = l.getD 0 d := by
  cases l <;> rfl

theorem set_block_def (g : GridRep) (x y : Int) (b : Block) :
    set_block g x y b = g.set y.toNat ((g.getD y.toNat []).set x.toNat b) := rfl

theorem set_row_getD_same (g : GridRep) (j : Nat) (r : List Block)
    (hlen : j < g.length) : (g.set j r).getD j [] = r := by
  rw [getD_eq_getElem, List.getElem?_set, if_pos rfl, if_pos hlen]
  rfl

theorem set_row_getD_other (g : GridRep) (j j2 : Nat) (r : List Block)
    (hj : j ≠ j2) : (g.set j r).getD j2 [] = g.getD j2 [] := by
  rw [getD_eq_getElem, List.getElem?_set_ne hj, getD_eq_getElem]

theorem get_cell_set_ne (g : GridRep) (i j x2 y2 : Nat) (b : Block)
    (h : ¬(i = x2 ∧ j = y2)) :
    get_cell (g.set j ((g.getD j []).set i b)) x2 y2 = get_cell g x2 y2 := by
  unfold get_cell
  by_cases hj : j = y2
  · subst hj
    have hi : i ≠ x2 := fun hc => h ⟨hc, rfl⟩
    by_cases hlen : j < g.length
    · rw [set_row_getD_same g j _ hlen, getD_eq_getElem ((g.getD j []).set i b),
        List.getElem?_set_ne hi, getD_eq_getElem (g.getD j [])]
    · rw [List.set_eq_of_length_le (by omega)]
  · rw [set_row_getD_other g j y2 _ hj]

theorem get_cell_set_self (g : GridRep) (i j : Nat) (b : Block)
    (hj : j < g.length) (hi : i < ((g.getD j []) : List Block).length) :
    get_cell (g.set j ((g.getD j []).set i b)) i j = b := by
  unfold get_cell
  rw [set_row_getD_same g j _ hj, getD_eq_getElem, List.getElem?_set_self hi]
  rfl

theorem length_set_block (g : GridRep) (x y : Int) (b : Block) :
    (set_block g x y b).length = g.length := by
  simp [set_block]

theorem row_length_set_block (g : GridRep) (x y : Int) (b : Block) (j : Nat) :
    (((set_block g x y b).getD j []) : List Block).length =
      ((g.getD j []) : List Block).length := by
  rw [set_block_def]
  by_cases hj : y.toNat = j
  · subst hj
    by_cases hlen : y.toNat < g.length
    · rw [set_row_getD_same g y.toNat _ hlen, List.length_set]
    · rw [List.set_eq_of_length_le (by omega)]
  · rw [set_row_getD_other g y.toNat j _ hj]

theorem width_set_block (g : GridRep) (x y : Int) (b : Block) :
    (((set_block g x y b).headD []) : List Block).length =
      ((g.headD []) : List Block).length := by
  rw [headD_eq_getD, headD_eq_getD]
  exact row_length_set_block g x y b 0

theorem bounds_eq_of_dims (g g2 : GridRep) (hl : g2.length = g.length)
    (hw : ((g2.headD []) : List Block).length = ((g.headD []) : List Block).length)
    (x y : Int) : is_within_bounds g2 x y = is_within_bounds g x y := by
  unfold is_within_bounds
  rw [hl, hw]

/-! ### Structure of `find_empty_positions` -/

theorem find_empty_mem_elim (g : GridRep) (p : Pos)
    (hp : p ∈ find_empty_positions g) :
    ∃ x y : Nat, p = (Int.ofNat x, Int.ofNat y) ∧ y < g.length ∧
      x < ((g.headD []) : List Block).length ∧
      (get_cell g x y).is_empty = true := by
  unfold find_empty_positions at hp
  rcases List.mem_flatMap.mp hp with ⟨y, hy, hmem⟩
  rcases List.mem_map.mp hmem with ⟨x, hx, rfl⟩
  rcases List.mem_filter.mp hx with ⟨hxr, he⟩
  exact ⟨x, y, rfl, List.mem_range.mp hy, List.mem_range.mp hxr, he⟩

theorem find_empty_nodup (g : GridRep) : (find_empty_positions g).Nodup := by
  unfold find_empty_positions
  apply List.nodup_flatMap.mpr
  constructor
  · intro y hy
    exact List.Nodup.map (fun a b hab => by simpa using hab)
      ((List.nodup_range _).filter _)
  · apply List.Pairwise.imp ?_ (List.pairwise_lt_range _)
    intro a b hab
    simp only [Function.onFun]
    intro p hpa hpb
    rcases List.mem_map.mp hpa with ⟨x1, _, rfl⟩
    rcases List.mem_map.mp hpb with ⟨x2, _, heq⟩
    have hsnd : Int.ofNat b = Int.ofNat a := congrArg Prod.snd heq
    have : a = b := Int.ofNat.inj hsnd.symm
    omega

theorem lt_row_of_empty (g : GridRep) (x y : Nat)
    (h : (get_cell g x y).is_empty = true) :
    x < ((g.getD y []) : List Block).length := by
  by_contra hc
  unfold get_cell at h
  rw [getD_eq_getElem (g.getD y []),
    List.getElem?_eq_none (by omega : ((g.getD y []) : List Block).length ≤ x)] at h
  cases h

/-! ### The two enumeration regimes -/

theorem all_same_replicate (n : Nat) (c : Char) :
    all_same_type (List.replicate n c) = true := by
  cases n with
  | zero => rfl
  | succ m =>
    simp only [List.replicate, all_same_type, List.all_eq_true]
    intro d hd
    rcases List.mem_cons.mp hd with rfl | hd
    · simp
    · simp [List.eq_of_mem_replicate hd]

theorem all_same_false {l : List Char} {c d : Char} (hc : c ∈ l) (hd : d ∈ l)
    (hne : c ≠ d) : all_same_type l = false := by
  cases l with
  | nil => cases hc
  | cons a t =>
    have h : ¬ all_same_type (a :: t) = true := by
      intro hb
      simp only [all_same_type, List.all_eq_true] at hb
      have h1 : c = a := by simpa using hb c hc
      have h2 : d = a := by simpa using hb d hd
      exact hne (h1.trans h2.symm)
    simpa using h

theorem zip_map_fst_sublist {α β γ : Type} (f : α → γ) :
    ∀ (l1 : List α) (l2 : List β),
      ((l1.zip l2).map (fun pk => f pk.1)).Sublist (l1.map f)
  | [], _ => by simp
  | x :: xs, [] => by simp
  | x :: xs, y :: ys => by
    simp only [List.zip_cons_cons, List.map_cons]
    exact (zip_map_fst_sublist f xs ys).cons₂ (f x)

/-! ### Placement writes -/

theorem place_fold_ne :
    ∀ (pairs : List (Pos × BlockType)) (g : GridRep) (x2 y2 : Nat),
      (∀ pk ∈ pairs, ¬(pk.1.1.toNat = x2 ∧ pk.1.2.toNat = y2)) →
      get_cell (pairs.foldl
        (fun g2 pk => set_block g2 pk.1.1 pk.1.2 ⟨pk.2, false⟩) g) x2 y2 =
        get_cell g x2 y2
  | [], g, x2, y2, _ => rfl
  | q :: rest, g, x2, y2, h => by
    rw [List.foldl_cons,
      place_fold_ne rest _ x2 y2
        (fun pk hpk => h pk (List.mem_cons_of_mem q hpk)),
      set_block_def]
    exact get_cell_set_ne g _ _ x2 y2 _ (h q (List.mem_cons_self q rest))

theorem place_pairs_get :
    ∀ (pairs : List (Pos × BlockType)) (g : GridRep) (n : Nat) (p : Pos)
      (kd : BlockType),
      pairs[n]? = some (p, kd) →
      (pairs.map (fun pk => (pk.1.1.toNat, pk.1.2.toNat))).Nodup →
      (∀ pk ∈ pairs, pk.1.2.toNat < g.length ∧
        pk.1.1.toNat < ((g.getD pk.1.2.toNat []) : List Block).length) →
      get_cell (pairs.foldl
        (fun g2 pk => set_block g2 pk.1.1 pk.1.2 ⟨pk.2, false⟩) g)
        p.1.toNat p.2.toNat = ⟨kd, false⟩
  | [], g, n, p, kd, h, _, _ => by simp at h
  | (q, kq) :: rest, g, n, p, kd, h, hnd, hb => by
    rcases List.nodup_cons.mp hnd with ⟨hq_notin, hnd2⟩
    match n with
    | 0 =>
      have hpq : q = p ∧ kq = kd := by simpa using h
      rcases hpq with ⟨rfl, rfl⟩
      rw [List.foldl_cons,
        place_fold_ne rest _ _ _ (fun pk hpk hc => hq_notin
          (List.mem_map.mpr ⟨pk, hpk, by rw [hc.1, hc.2]⟩)),
        set_block_def]
      have hbq := hb (q, kq) (List.mem_cons_self _ _)
      exact get_cell_set_self g _ _ _ hbq.1 hbq.2
    | n+1 =>
      have h1 : rest[n]? = some (p, kd) := by simpa using h
      rw [List.foldl_cons]
      apply place_pairs_get rest _ n p kd h1 hnd2
      intro pk hpk
      have hb2 := hb pk (List.mem_cons_of_mem _ hpk)
      rw [length_set_block, row_length_set_block]
      exact hb2

/-- C7: with `n` empty positions and budget `(a, b, c)` summing to `k`,
the enumerator yields `C(n, k)` combinations when at most one count is
non-zero and `P(n, k)` permutations when at least two are; every emitted
configuration consists of distinct empty positions; and the placement step
assigns position `i` of a configuration the `i`-th entry of the kind list
`[REFLECT]*a ++ [OPAQUE]*b ++ [REFRACT]*c`. -/
theorem spec_C7_enumerator (g : GridRep) (bd : AvailableBlocks) :
    (((bd.B = 0 ∧ bd.C = 0) ∨ (bd.A = 0 ∧ bd.C = 0) ∨ (bd.A = 0 ∧ bd.B = 0)) →
      (all_possible_configs g bd).length =
        (find_empty_positions g).length.choose (bd.A + bd.B + bd.C)) ∧
    (((0 < bd.A ∧ 0 < bd.B) ∨ (0 < bd.A ∧ 0 < bd.C) ∨ (0 < bd.B ∧ 0 < bd.C)) →
      (all_possible_configs g bd).length =
        (find_empty_positions g).length.descFactorial (bd.A + bd.B + bd.C)) ∧
    (∀ cfg ∈ all_possible_configs g bd,
      cfg.Nodup ∧ ∀ p ∈ cfg, p ∈ find_empty_positions g) ∧
    (∀ cfg ∈ all_possible_configs g bd, ∀ (n : Nat) (p : Pos) (kd : BlockType),
      cfg[n]? = some p → (placement_kinds bd)[n]? = some kd →
      get_cell (place_blocks_in_grid g bd cfg) p.1.toNat p.2.toNat =
        ⟨kd, false⟩) := by
  have h3 : ∀ cfg ∈ all_possible_configs g bd,
      cfg.Nodup ∧ ∀ p ∈ cfg, p ∈ find_empty_positions g := by
    intro cfg hcfg
    unfold all_possible_configs at hcfg
    by_cases hs : all_same_type (block_letters bd) = true
    · rw [if_pos hs] at hcfg
      have hsub := combinations_sublist _ _ cfg hcfg
      exact ⟨(find_empty_nodup g).sublist hsub, fun p hp => hsub.subset hp⟩
    · rw [if_neg hs] at hcfg
      have hm := permutations_len_mem _ _ cfg hcfg
      exact ⟨hm.2 (find_empty_nodup g), hm.1⟩
  refine ⟨?_, ?_, h3, ?_⟩
  · rintro (⟨h1, h2⟩ | ⟨h1, h2⟩ | ⟨h1, h2⟩) <;>
      [(have hl : block_letters bd = List.replicate bd.A 'A' := by
          simp [block_letters, h1, h2]);
       (have hl : block_letters bd = List.replicate bd.B 'B' := by
          simp [block_letters, h1, h2]);
       (have hl : block_letters bd = List.replicate bd.C 'C' := by
          simp [block_letters, h1, h2])] <;>
    · have hs : all_same_type (block_letters bd) = true := by
        rw [hl]; exact all_same_replicate _ _
      unfold all_possible_configs
      rw [if_pos hs, length_combinations, length_block_letters]
  · have hmA : 0 < bd.A → 'A' ∈ block_letters bd := fun h =>
      List.mem_append_left _ (List.mem_append_left _
        (List.mem_replicate.mpr ⟨by omega, rfl⟩))
    have hmB : 0 < bd.B → 'B' ∈ block_letters bd := fun h =>
      List.mem_append_left _ (List.mem_append_right _
        (List.mem_replicate.mpr ⟨by omega, rfl⟩))
    have hmC : 0 < bd.C → 'C' ∈ block_letters bd := fun h =>
      List.mem_append_right _ (List.mem_replicate.mpr ⟨by omega, rfl⟩)
    rintro (⟨h1, h2⟩ | ⟨h1, h2⟩ | ⟨h1, h2⟩) <;>
      [(have hs := all_same_false (hmA h1) (hmB h2) (by decide));
       (have hs := all_same_false (hmA h1) (hmC h2) (by decide));
       (have hs := all_same_false (hmB h1) (hmC h2) (by decide))] <;>
    · unfold all_possible_configs
      rw [if_neg (by simp [hs]), length_permutations_len, length_block_letters]
  · intro cfg hcfg n p kd hp hkd
    have h3c := h3 cfg hcfg
    have hzip : (cfg.zip (placement_kinds bd))[n]? = some (p, kd) :=
      List.getElem?_zip_eq_some.mpr ⟨hp, hkd⟩
    unfold place_blocks_in_grid
    apply place_pairs_get _ g n p kd hzip
    · have htn : (cfg.map (fun q => (q.1.toNat, q.2.toNat))).Nodup := by
        apply List.Nodup.map_on ?_ h3c.1
        intro a ha b hb hab
        rcases find_empty_mem_elim g a (h3c.2 a ha) with ⟨xa, ya, rfl, _, _, _⟩
        rcases find_empty_mem_elim g b (h3c.2 b hb) with ⟨xb, yb, rfl, _, _, _⟩
        have hx : xa = xb := congrArg Prod.fst hab
        have hy : ya = yb := congrArg Prod.snd hab
        rw [hx, hy]
      exact htn.sublist
        (zip_map_fst_sublist (fun q => (q.1.toNat, q.2.toNat)) cfg
          (placement_kinds bd))
    · intro pk hpk
      have hmem : pk.1 ∈ cfg := (List.of_mem_zip hpk).1
      rcases find_empty_mem_elim g pk.1 (h3c.2 _ hmem) with ⟨x, y, heq, hy, hx, he⟩
      refine ⟨?_, ?_⟩ <;> rw [heq]
      · exact hy
      · exact lt_row_of_empty g x y he

/-- C7 witness: a parsed 2-by-2 grid has four empty positions; a budget of
two reflect blocks enumerates `C(4,2) = 6` placements, a mixed budget of
one reflect and one absorbing block enumerates `P(4,2) = 12`, and in the
mixed regime position 0 of a configuration receives the reflect block. -/
theorem spec_C7_witness :
    (all_possible_configs (read_bff_grid [['o', 'o'], ['o', 'o']])
      ⟨2, 0, 0⟩).length = Nat.choose 4 2 ∧
    (all_possible_configs (read_bff_grid [['o', 'o'], ['o', 'o']])
      ⟨1, 1, 0⟩).length = Nat.descFactorial 4 2 ∧
    get_cell (place_blocks_in_grid (read_bff_grid [['o', 'o'], ['o', 'o']])
      ⟨1, 1, 0⟩ [(1, 1), (3, 1)]) 1 1 = ⟨BlockType.reflect, false⟩ := by
  refine ⟨?_, ?_, ?_⟩
  · exact (spec_C7_enumerator (read_bff_grid [['o', 'o'], ['o', 'o']])
      ⟨2, 0, 0⟩).1 (Or.inl ⟨rfl, rfl⟩)
  · exact (spec_C7_enumerator (read_bff_grid [['o', 'o'], ['o', 'o']])
      ⟨1, 1, 0⟩).2.1 (Or.inl ⟨by decide, by decide⟩)
  · exact (spec_C7_enumerator (read_bff_grid [['o', 'o'], ['o', 'o']])
      ⟨1, 1, 0⟩).2.2.2 [(1, 1), (3, 1)] (by decide) 0 (1, 1)
      BlockType.reflect (by decide) (by decide)

/-! ### A puzzle on which the simulation never terminates

The lattice parsed from the 3-by-3 source grid `AAA / CCA / AAA` together
with the emitter at `(2,3)` in direction `(1,1)` makes
`process_laser_paths` loop forever: the emitter spawns the laser
`(2,3,-1,1)` at the left refractor and re-spawns itself at the right one,
and the spawned laser re-spawns the emitter again, so every popped laser
enqueues at least one new laser and the work queue never empties.  The
painting done between lasers only turns cells with one odd coordinate into
`'laser'` blocks, while the stepping rules only ever inspect cells with
two even or two odd coordinates, so the paint stabilises after the first
laser and never changes any trace. -/

def bad_grid : GridRep :=
  read_bff_grid [['A', 'A', 'A'], ['C', 'C', 'A'], ['A', 'A', 'A']]

def badL0 : Laser := ⟨2, 3, 1, 1⟩

def badL1 : Laser := ⟨2, 3, -1, 1⟩

/-- The grid after painting the first laser's path; all later paints leave
it unchanged. -/
def bad_grid1 : GridRep :=
  paint_grid bad_grid (calculate_laser_path bad_grid badL0).1

theorem bad_inv : ∀ (fuel : Nat) (Q : List Laser) (hit : List Pos),
    Q ≠ [] → (∀ l ∈ Q, l = badL0 ∨ l = badL1) →
    process_laser_paths fuel bad_grid1 Q hit = Option.none
  | 0, [], _, hne, _ => absurd rfl hne
  | 0, _ :: _, _, _, _ => rfl
  | fuel+1, [], _, hne, _ => absurd rfl hne
  | fuel+1, l :: rest, hit, _, hQ => by
    have hf1 : (calculate_laser_path bad_grid1 badL0).2 = [badL1, badL0] := by
      decide
    have hf2 : (calculate_laser_path bad_grid1 badL1).2 = [badL0] := by decide
    have hf3 : paint_grid bad_grid1 (calculate_laser_path bad_grid1 badL0).1 =
        bad_grid1 := by decide
    have hf4 : paint_grid bad_grid1 (calculate_laser_path bad_grid1 badL1).1 =
        bad_grid1 := by decide
    show process_laser_paths fuel
      (paint_grid bad_grid1 (calculate_laser_path bad_grid1 l).1)
      (rest ++ (calculate_laser_path bad_grid1 l).2) _ = Option.none
    rcases hQ l (List.mem_cons_self l rest) with rfl | rfl
    · rw [hf3, hf1]
      refine bad_inv fuel _ _ (by simp) ?_
      intro x hx
      rcases List.mem_append.mp hx with hx | hx
      · exact hQ x (List.mem_cons_of_mem _ hx)
      · rcases List.mem_cons.mp hx with rfl | hx
        · exact Or.inr rfl
        · rcases List.mem_cons.mp hx with rfl | hx
          · exact Or.inl rfl
          · cases hx
    · rw [hf4, hf2]
      refine bad_inv fuel _ _ (by simp) ?_
      intro x hx
      rcases List.mem_append.mp hx with hx | hx
      · exact hQ x (List.mem_cons_of_mem _ hx)
      · rcases List.mem_cons.mp hx with rfl | hx
        · exact Or.inl rfl
        · cases hx

theorem process_bad_diverges (fuel : Nat) :
    process_laser_paths fuel bad_grid [badL0] [] = Option.none := by
  cases fuel with
  | zero => rfl
  | succ fuel =>
    show process_laser_paths fuel
      (paint_grid bad_grid (calculate_laser_path bad_grid badL0).1)
      ([] ++ (calculate_laser_path bad_grid badL0).2) _ = Option.none
    have hs : (calculate_laser_path bad_grid badL0).2 = [badL1, badL0] := by
      decide
    rw [hs, List.nil_append]
    exact bad_inv fuel [badL1, badL0] _ (by simp)
      (fun x hx => by
        rcases List.mem_cons.mp hx with rfl | hx
        · exact Or.inr rfl
        · rcases List.mem_cons.mp hx with rfl | hx
          · exact Or.inl rfl
          · cases hx)

theorem trace_loop_length_le (g : GridRep) :
    ∀ (n : Nat) (l : Laser) (acc : List Pos) (sp : List Laser),
      (trace_loop g n l acc sp).1.length ≤ acc.length + n
  | 0, l, acc, sp => Nat.le_refl _
  | n+1, l, acc, sp => by
    simp only [trace_loop]
    split
    · show acc.length ≤ acc.length + (n + 1)
      omega
    · split
      · show acc.length ≤ acc.length + (n + 1)
        omega
      · exact le_trans (trace_loop_length_le g n l acc sp) (by omega)
    · split
      · show (acc ++ [_]).length ≤ acc.length + (n + 1)
        rw [List.length_append]
        simp
      · refine le_trans (trace_loop_length_le g n _ _ _) ?_
        rw [List.length_append]
        simp
        omega

/-- C2: the per-laser guard does hold (a traced path records at most
`MAX_STEPS` points beyond its start), but the claimed spawn cap does not
exist in the code: on `bad_grid` with the single emitter `badL0` the work
queue of `process_laser_paths` never empties, so the simulation does not
terminate for any fuel. -/
theorem spec_C2_divergence :
    (∀ (g : GridRep) (l : Laser),
      (calculate_laser_path g l).1.length ≤ MAX_STEPS + 1) ∧
    ∀ fuel : Nat,
      process_laser_paths fuel bad_grid [badL0] [] = Option.none := by
  refine ⟨fun g l => ?_, process_bad_diverges⟩
  have h := trace_loop_length_le g MAX_STEPS l [(l.x, l.y)] []
  simpa [calculate_laser_path, Nat.add_comm] using h

/-! ### C1: what `solve` returns when it returns -/

theorem solve_go_spec (fuel : Nat) (g : GridRep) (bd : AvailableBlocks)
    (lasers : List Laser) (points : List Pos) :
    ∀ (configs : List (List Pos)) (res : Option (List Pos)),
      solve_go fuel g bd lasers points configs = some res →
      (res = Option.none ∧ ∀ cfg ∈ configs,
        process_covers fuel (place_blocks_in_grid g bd cfg) lasers points =
          some false) ∨
      (∃ cfg pre post, res = some cfg ∧ configs = pre ++ cfg :: post ∧
        process_covers fuel (place_blocks_in_grid g bd cfg) lasers points =
          some true ∧
        ∀ c2 ∈ pre,
          process_covers fuel (place_blocks_in_grid g bd c2) lasers points =
            some false)
  | [], res, h => by
    left
    refine ⟨?_, by simp⟩
    have : some Option.none = some res := h
    exact (Option.some.inj this).symm
  | c :: cs, res, h => by
    rw [solve_go] at h
    cases hc : process_covers fuel (place_blocks_in_grid g bd c) lasers
        points with
    | none => rw [hc] at h; cases h
    | some b =>
      cases b with
      | true =>
        rw [hc] at h
        right
        exact ⟨c, [], cs, (Option.some.inj h).symm, rfl, hc, by simp⟩
      | false =>
        rw [hc] at h
        rcases solve_go_spec fuel g bd lasers points cs res h with
          ⟨hres, hall⟩ | ⟨cfg, pre, post, hres, hsplit, hcov, hpre⟩
        · left
          refine ⟨hres, fun cfg hcfg => ?_⟩
          rcases List.mem_cons.mp hcfg with rfl | hcfg
          · exact hc
          · exact hall cfg hcfg
        · right
          refine ⟨cfg, c :: pre, post, hres, by rw [hsplit]; rfl, hcov, ?_⟩
          intro c2 hc2
          rcases List.mem_cons.mp hc2 with rfl | hc2
          · exact hc
          · exact hpre c2 hc2

/-- C1 (amended): whenever the fueled `solve` returns a value, that value
is either the no-solution result — in which case the simulation of every
enumerated placement failed to cover the targets — or the first enumerated
placement whose simulated in-bounds hit points contain every target, never
an exception.  The amendment restricts the claim to runs on which the
simulation of the attempted placements terminates: `spec_C1_counterexample`
shows a puzzle on which `solve` never returns at all. -/
theorem spec_C1_first_cover (fuel : Nat) (g : GridRep) (bd : AvailableBlocks)
    (lasers : List Laser) (points : List Pos) (res : Option (List Pos))
    (h : solve fuel g bd lasers points = some res) :
    (res = Option.none ∧ ∀ cfg ∈ all_possible_configs g bd,
      process_covers fuel (place_blocks_in_grid g bd cfg) lasers points =
        some false) ∨
    (∃ cfg pre post, res = some cfg ∧
      all_possible_configs g bd = pre ++ cfg :: post ∧
      process_covers fuel (place_blocks_in_grid g bd cfg) lasers points =
        some true ∧
      ∀ c2 ∈ pre,
        process_covers fuel (place_blocks_in_grid g bd c2) lasers points =
          some false) :=
  solve_go_spec fuel g bd lasers points (all_possible_configs g bd) res h

/-- C1 counterexample: on the refractor-cycle puzzle the claim's
"for every puzzle, solve returns ..." fails — `solve` diverges inside the
laser simulation of its very first candidate placement and never produces
a result, for any fuel. -/
theorem spec_C1_counterexample :
    ¬ ∃ (fuel : Nat) (res : Option (List Pos)),
      solve fuel bad_grid ⟨0, 0, 0⟩ [badL0] [(0, 0)] = some res := by
  rintro ⟨fuel, res, h⟩
  have hc : all_possible_configs bad_grid ⟨0, 0, 0⟩ = [[]] := by decide
  unfold solve at h
  rw [hc] at h
  have hp : place_blocks_in_grid bad_grid ⟨0, 0, 0⟩ [] = bad_grid := rfl
  have hcov : process_covers fuel bad_grid [badL0] [(0, 0)] = Option.none := by
    unfold process_covers
    rw [process_bad_diverges fuel]
    rfl
  rw [solve_go, hp, hcov] at h
  cases h

/-- C1 witness: on a trivial 1-cell puzzle whose emitter alone covers the
target, `solve` returns a success with the first (empty) placement. -/
theorem spec_C1_witness :
    ((some [] : Option (List Pos)) = Option.none ∧
      ∀ cfg ∈ all_possible_configs (read_bff_grid [['o']]) ⟨0, 0, 0⟩,
        process_covers 5
          (place_blocks_in_grid (read_bff_grid [['o']]) ⟨0, 0, 0⟩ cfg)
          [⟨1, 0, 1, 1⟩] [(2, 1)] = some false) ∨
    (∃ cfg pre post, (some [] : Option (List Pos)) = some cfg ∧
      all_possible_configs (read_bff_grid [['o']]) ⟨0, 0, 0⟩ =
        pre ++ cfg :: post ∧
      process_covers 5
        (place_blocks_in_grid (read_bff_grid [['o']]) ⟨0, 0, 0⟩ cfg)
        [⟨1, 0, 1, 1⟩] [(2, 1)] = some true ∧
      ∀ c2 ∈ pre,
        process_covers 5
          (place_blocks_in_grid (read_bff_grid [['o']]) ⟨0, 0, 0⟩ c2)
          [⟨1, 0, 1, 1⟩] [(2, 1)] = some false) :=
  spec_C1_first_cover 5 (read_bff_grid [['o']]) ⟨0, 0, 0⟩ [⟨1, 0, 1, 1⟩]
    [(2, 1)] (some []) (by decide)

/-! ### C3: which cells the program overwrites -/

/-- The grid of a finished fueled run (junk for an exhausted run). -/
def grid_of : Option (GridRep × List Pos) → GridRep
  | some r => r.1
  | Option.none => []

theorem set_row_self (g : GridRep) (j x y : Nat) :
    get_cell (g.set j (g.getD j [])) x y = get_cell g x y := by
  unfold get_cell
  by_cases hj : j = y
  · subst hj
    by_cases hl : j < g.length
    · rw [set_row_getD_same g j _ hl]
    · rw [List.set_eq_of_length_le (by omega)]
  · rw [set_row_getD_other g j y _ hj]

theorem get_cell_set_block_cases (g : GridRep) (p : Pos) (b : Block)
    (x y : Nat) :
    get_cell (set_block g p.1 p.2 b) x y = get_cell g x y ∨
    (x = p.1.toNat ∧ y = p.2.toNat ∧
      get_cell (set_block g p.1 p.2 b) x y = b) := by
  rw [set_block_def]
  by_cases hxy : p.1.toNat = x ∧ p.2.toNat = y
  · rcases hxy with ⟨hx, hy⟩
    by_cases hjl : p.2.toNat < g.length
    · by_cases hil : p.1.toNat < ((g.getD p.2.toNat []) : List Block).length
      · right
        refine ⟨hx.symm, hy.symm, ?_⟩
        rw [← hx, ← hy]
        exact get_cell_set_self g _ _ b hjl hil
      · left
        have hrow : ((g.getD p.2.toNat []) : List Block).set p.1.toNat b =
            g.getD p.2.toNat [] := List.set_eq_of_length_le (by omega)
        rw [hrow]
        exact set_row_self g _ x y
    · left
      have hgr : g.set p.2.toNat ((g.getD p.2.toNat []).set p.1.toNat b) = g :=
        List.set_eq_of_length_le (by omega)
      rw [hgr]
  · left
    exact get_cell_set_ne g _ _ x y b hxy

theorem paint_cell_changes (g : GridRep) (p : Pos) (x y : Nat)
    (h : get_cell (paint_cell g p) x y ≠ get_cell g x y) :
    ((get_cell g x y).block_type = BlockType.empty ∨
      (get_cell g x y).block_type = BlockType.none) ∧
    get_cell (paint_cell g p) x y = laserBlock := by
  unfold paint_cell at h ⊢
  by_cases hb : is_within_bounds g p.1 p.2 = true
  · rw [if_pos hb] at h ⊢
    by_cases htype : (get_block g p.1 p.2).block_type = BlockType.empty ∨
        (get_block g p.1 p.2).block_type = BlockType.none
    · rw [if_pos htype] at h ⊢
      rcases get_cell_set_block_cases g p laserBlock x y with
        hsame | ⟨rfl, rfl, hval⟩
      · exact absurd hsame h
      · exact ⟨htype, hval⟩
    · rw [if_neg htype] at h
      exact absurd rfl h
  · rw [if_neg hb] at h
    exact absurd rfl h

theorem paint_grid_changes :
    ∀ (ps : List Pos) (g : GridRep) (x y : Nat),
      get_cell (paint_grid g ps) x y ≠ get_cell g x y →
      ((get_cell g x y).block_type = BlockType.empty ∨
        (get_cell g x y).block_type = BlockType.none) ∧
      get_cell (paint_grid g ps) x y = laserBlock
  | [], g, x, y, h => absurd rfl h
  | p :: ps, g, x, y, h => by
    have hcons : paint_grid g (p :: ps) = paint_grid (paint_cell g p) ps := rfl
    rw [hcons] at h ⊢
    by_cases h1 : get_cell (paint_cell g p) x y = get_cell g x y
    · have h2 : get_cell (paint_grid (paint_cell g p) ps) x y ≠
          get_cell (paint_cell g p) x y := by rw [h1]; exact h
      have h3 := paint_grid_changes ps (paint_cell g p) x y h2
      rw [h1] at h3
      exact h3
    · have hc := paint_cell_changes g p x y h1
      refine ⟨hc.1, ?_⟩
      by_cases h2 : get_cell (paint_grid (paint_cell g p) ps) x y =
          get_cell (paint_cell g p) x y
      · rw [h2, hc.2]
      · exact (paint_grid_changes ps (paint_cell g p) x y h2).2

theorem process_changes :
    ∀ (fuel : Nat) (g : GridRep) (Q : List Laser) (hit : List Pos)
      (r : GridRep × List Pos),
      process_laser_paths fuel g Q hit = some r →
      ∀ x y : Nat, get_cell r.1 x y ≠ get_cell g x y →
        ((get_cell g x y).block_type = BlockType.empty ∨
          (get_cell g x y).block_type = BlockType.none) ∧
        get_cell r.1 x y = laserBlock
  | fuel, g, [], hit, r, h => by
    intro x y hne
    have heq : process_laser_paths fuel g [] hit = some (g, hit) := by
      cases fuel <;> rfl
    rw [heq] at h
    have hr : (g, hit) = r := Option.some.inj h
    rw [← hr] at hne
    exact absurd rfl hne
  | 0, g, q :: Q, hit, r, h => by cases h
  | fuel+1, g, q :: Q, hit, r, h => by
    intro x y hne
    have h2 : process_laser_paths fuel
        (paint_grid g (calculate_laser_path g q).1)
        (Q ++ (calculate_laser_path g q).2)
        (hit ++ (calculate_laser_path g q).1.filter
          (fun p => is_within_bounds g p.1 p.2)) = some r := h
    by_cases hstep : get_cell (paint_grid g (calculate_laser_path g q).1) x y =
        get_cell g x y
    · have hne2 : get_cell r.1 x y ≠
          get_cell (paint_grid g (calculate_laser_path g q).1) x y := by
        rw [hstep]; exact hne
      have h3 := process_changes fuel _ _ _ r h2 x y hne2
      rw [hstep] at h3
      exact h3
    · have hpc := paint_grid_changes _ g x y hstep
      refine ⟨hpc.1, ?_⟩
      by_cases hr2 : get_cell r.1 x y =
          get_cell (paint_grid g (calculate_laser_path g q).1) x y
      · rw [hr2, hpc.2]
      · exact (process_changes fuel _ _ _ r h2 x y hr2).2

theorem fold_set_changes :
    ∀ (pairs : List (Pos × BlockType)) (g : GridRep) (x y : Nat),
      get_cell (pairs.foldl
        (fun g2 pk => set_block g2 pk.1.1 pk.1.2 ⟨pk.2, false⟩) g) x y ≠
        get_cell g x y →
      ∃ pk ∈ pairs, x = pk.1.1.toNat ∧ y = pk.1.2.toNat
  | [], g, x, y, h => absurd rfl h
  | q :: rest, g, x, y, h => by
    rw [List.foldl_cons] at h
    by_cases h1 : get_cell (set_block g q.1.1 q.1.2 ⟨q.2, false⟩) x y =
        get_cell g x y
    · have h2 : get_cell (rest.foldl
          (fun g2 pk => set_block g2 pk.1.1 pk.1.2 ⟨pk.2, false⟩)
          (set_block g q.1.1 q.1.2 ⟨q.2, false⟩)) x y ≠
          get_cell (set_block g q.1.1 q.1.2 ⟨q.2, false⟩) x y := by
        rw [h1]; exact h
      rcases fold_set_changes rest _ x y h2 with ⟨pk, hpk, hx, hy⟩
      exact ⟨pk, List.mem_cons_of_mem q hpk, hx, hy⟩
    · rcases get_cell_set_block_cases g q.1 ⟨q.2, false⟩ x y with
        hsame | ⟨hx, hy, _⟩
      · exact absurd hsame h1
      · exact ⟨q, List.mem_cons_self q rest, hx, hy⟩

theorem configs_subset_empty (g : GridRep) (bd : AvailableBlocks) :
    ∀ cfg ∈ all_possible_configs g bd, ∀ p ∈ cfg,
      p ∈ find_empty_positions g := by
  intro cfg hcfg
  unfold all_possible_configs at hcfg
  by_cases hs : all_same_type (block_letters bd) = true
  · rw [if_pos hs] at hcfg
    exact fun p hp => (combinations_sublist _ _ cfg hcfg).subset hp
  · rw [if_neg hs] at hcfg
    exact (permutations_len_mem _ _ cfg hcfg).1

/-- C3 (amended): the placement step only ever overwrites movable `EMPTY`
cells, and the simulator's trace painting overwrites exactly cells holding
`EMPTY` or `NONE` blocks, replacing them with the fixed `LASER_TRACE`
block — so interacting blocks (and their `fixed` flags) survive, but fixed
`NONE` padding cells are overwritten by the painting, contrary to the
original claim (see `spec_C3_counterexample`). -/
theorem spec_C3_overwrite (g : GridRep) (bd : AvailableBlocks) (fuel : Nat)
    (lasers : List Laser) (hit : List Pos) :
    (∀ cfg ∈ all_possible_configs g bd, ∀ x y : Nat,
      get_cell (place_blocks_in_grid g bd cfg) x y ≠ get_cell g x y →
      (get_cell g x y).is_empty = true) ∧
    ((process_laser_paths fuel g lasers hit).isSome = true →
      ∀ x y : Nat,
        get_cell (grid_of (process_laser_paths fuel g lasers hit)) x y ≠
          get_cell g x y →
        ((get_cell g x y).block_type = BlockType.empty ∨
          (get_cell g x y).block_type = BlockType.none) ∧
        get_cell (grid_of (process_laser_paths fuel g lasers hit)) x y =
          laserBlock) := by
  constructor
  · intro cfg hcfg x y hch
    unfold place_blocks_in_grid at hch
    rcases fold_set_changes _ g x y hch with ⟨pk, hpk, hx, hy⟩
    have hmem : pk.1 ∈ cfg := (List.of_mem_zip hpk).1
    rcases find_empty_mem_elim g pk.1 (configs_subset_empty g bd cfg hcfg _ hmem)
      with ⟨px, py, heq, _, _, he⟩
    rw [hx, hy, heq]
    exact he
  · intro hsome x y hch
    cases hq : process_laser_paths fuel g lasers hit with
    | none => rw [hq] at hsome; cases hsome
    | some r =>
      rw [hq] at hch
      exact process_changes fuel g lasers hit r hq x y hch

/-- C3 counterexample: the claim as stated is false — running the
simulation on the parsed 1-cell grid overwrites the fixed `'none'` padding
cell `(1,0)` (the emitter's own cell) with the `'laser'` trace block. -/
theorem spec_C3_counterexample :
    get_cell (read_bff_grid [['o']]) 1 0 = ⟨BlockType.none, true⟩ ∧
    (read_bff_grid [['o']]).getD 0 [] ≠ [] ∧
    (process_laser_paths 2 (read_bff_grid [['o']]) [⟨1, 0, 1, 1⟩] []).map
      (fun r => get_cell r.1 1 0) = some laserBlock := by
  exact ⟨by decide, by decide, by decide⟩

/-- C3 witness: in the same 1-cell puzzle, placing the budgeted block
changes only the empty cell `(1,1)`, and the simulation's painting turned
cell `(1,0)` — previously `EMPTY` or `NONE` — into the laser-trace
block. -/
theorem spec_C3_witness :
    (get_cell (read_bff_grid [['o']]) 1 1).is_empty = true ∧
    (((get_cell (read_bff_grid [['o']]) 1 0).block_type = BlockType.empty ∨
      (get_cell (read_bff_grid [['o']]) 1 0).block_type = BlockType.none) ∧
    get_cell (grid_of (process_laser_paths 2 (read_bff_grid [['o']])
      [⟨1, 0, 1, 1⟩] [])) 1 0 = laserBlock) := by
  have h := spec_C3_overwrite (read_bff_grid [['o']]) ⟨1, 0, 0⟩ 2
    [⟨1, 0, 1, 1⟩] []
  exact ⟨h.1 [(1, 1)] (by decide) 1 1 (by decide),
    h.2 (by decide) 1 0 (by decide)⟩

/-! ### Parity of the lattice and of laser states

A laser of the intended puzzles starts on a cell with exactly one odd
coordinate (spec section 3) and moves diagonally, so its two inspected
neighbours always have either two odd or two even coordinates; the
even/even one is interstitial padding.  The following definitions make
those side conditions decidable. -/

/-- Both coordinates odd: the cells produced from source characters. -/
def odd_odd (p : Pos) : Bool :=
  decide (p.1 % 2 = 1) && decide (p.2 % 2 = 1)

/-- Both coordinates even. -/
def even_even (p : Pos) : Bool :=
  decide (p.1 % 2 = 0) && decide (p.2 % 2 = 0)

/-- Exactly one odd coordinate: the positions lasers inhabit. -/
def mixed_parity (p : Pos) : Bool :=
  decide ((p.1 + p.2) % 2 = 1)

/-- Both direction components in `{-1, +1}` (spec section 3). -/
def diag_dir (l : Laser) : Bool :=
  (decide (l.vx = 1) || decide (l.vx = -1)) &&
  (decide (l.vy = 1) || decide (l.vy = -1))

/-- The laser-state class preserved by the simulation on intended
puzzles: a mixed-parity position and a diagonal direction. -/
def good_laser (l : Laser) : Bool :=
  mixed_parity (l.x, l.y) && diag_dir l

/-- Every in-range cell off the odd/odd sublattice holds the fixed
`'none'` padding block (true of every parsed lattice, and preserved by
placement, which only touches odd/odd `EMPTY` cells). -/
def parity_layout (g : GridRep) : Bool :=
  (List.range g.length).all (fun y =>
    (List.range (g.headD []).length).all (fun x =>
      odd_odd (Int.ofNat x, Int.ofNat y) || (get_cell g x y == noneBlock)))

theorem good_laser_spec (l : Laser) :
    good_laser l = true ↔
      (l.x + l.y) % 2 = 1 ∧ (l.vx = 1 ∨ l.vx = -1) ∧
        (l.vy = 1 ∨ l.vy = -1) := by
  simp [good_laser, mixed_parity, diag_dir, and_assoc]

theorem bounds_spec (g : GridRep) (x y : Int)
    (h : is_within_bounds g x y = true) :
    0 ≤ x ∧ x < (((g.headD []) : List Block).length : Int) ∧
    0 ≤ y ∧ y < (g.length : Int) := by
  simpa [is_within_bounds, and_assoc] using h

theorem parity_none (g : GridRep) (x y : Int) (hg : parity_layout g = true)
    (hb : is_within_bounds g x y = true) (hodd : ¬ odd_odd (x, y) = true) :
    get_block g x y = noneBlock := by
  rcases bounds_spec g x y hb with ⟨hx0, hxw, hy0, hyl⟩
  have hx : (Int.ofNat x.toNat) = x := Int.toNat_of_nonneg hx0
  have hy : (Int.ofNat y.toNat) = y := Int.toNat_of_nonneg hy0
  unfold parity_layout at hg
  rw [List.all_eq_true] at hg
  have h1 := hg y.toNat (List.mem_range.mpr (by omega))
  rw [List.all_eq_true] at h1
  have h2 := h1 x.toNat (List.mem_range.mpr (by omega))
  rw [hx, hy] at h2
  rw [Bool.or_eq_true] at h2
  rcases h2 with h3 | h3
  · exact absurd h3 hodd
  · exact eq_of_beq h3

theorem neighbor_parity (x y vx vy : Int) (hm : (x + y) % 2 = 1)
    (hvx : vx = 1 ∨ vx = -1) (hvy : vy = 1 ∨ vy = -1) :
    ((odd_odd (x + vx, y) = true ∧ even_even (x, y + vy) = true ∧
        odd_odd (x, y + vy) = false) ∨
      (odd_odd (x, y + vy) = true ∧ even_even (x + vx, y) = true ∧
        odd_odd (x + vx, y) = false)) ∧
    mixed_parity (x + vx, y) = false ∧ mixed_parity (x, y + vy) = false := by
  simp only [odd_odd, even_even, mixed_parity, Bool.and_eq_true,
    decide_eq_true_eq, Bool.and_eq_false_iff, decide_eq_false_iff_not]
  rcases hvx with rfl | rfl <;> rcases hvy with rfl | rfl <;> omega

/-! ### Shape of a stepping iteration -/

theorem laser_step_cases (g : GridRep) (l : Laser) (l2 : Laser)
    (sp : Option Laser) (h : laser_step g l = StepRes.moved l2 sp) :
    (∃ a b : Int, (a = l.vx ∨ a = -l.vx) ∧ (b = l.vy ∨ b = -l.vy) ∧
      l2 = ⟨l.x + a, l.y + b, a, b⟩) ∧
    (∀ s, sp = some s → s = l.refract_x ∨ s = l.refract_y) := by
  unfold laser_step at h
  split at h
  · exact StepRes.noConfusion h
  · split at h
    · exact StepRes.noConfusion h
    · split at h
      · injection h with h1 h2
        refine ⟨⟨-l.vx, l.vy, Or.inr rfl, Or.inl rfl, ?_⟩, ?_⟩
        · rw [← h1]; rfl
        · intro s hs; rw [← h2] at hs; cases hs
      · split at h
        · injection h with h1 h2
          refine ⟨⟨l.vx, -l.vy, Or.inl rfl, Or.inr rfl, ?_⟩, ?_⟩
          · rw [← h1]; rfl
          · intro s hs; rw [← h2] at hs; cases hs
        · split at h
          · exact StepRes.noConfusion h
          · split at h
            · injection h with h1 h2
              refine ⟨⟨l.vx, l.vy, Or.inl rfl, Or.inl rfl, ?_⟩, ?_⟩
              · rw [← h1]; rfl
              · intro s hs
                rw [← h2] at hs
                exact Or.inl (Option.some.inj hs).symm
            · split at h
              · injection h with h1 h2
                refine ⟨⟨l.vx, l.vy, Or.inl rfl, Or.inl rfl, ?_⟩, ?_⟩
                · rw [← h1]; rfl
                · intro s hs
                  rw [← h2] at hs
                  exact Or.inr (Option.some.inj hs).symm
              · split at h
                · injection h with h1 h2
                  refine ⟨⟨l.vx, l.vy, Or.inl rfl, Or.inl rfl, ?_⟩, ?_⟩
                  · rw [← h1]; rfl
                  · intro s hs; rw [← h2] at hs; cases hs
                · split at h
                  · injection h with h1 h2
                    refine ⟨⟨l.vx, l.vy, Or.inl rfl, Or.inl rfl, ?_⟩, ?_⟩
                    · rw [← h1]; rfl
                    · intro s hs; rw [← h2] at hs; cases hs
                  · exact StepRes.noConfusion h

theorem step_good (g : GridRep) (l l2 : Laser) (sp : Option Laser)
    (hgood : good_laser l = true) (h : laser_step g l = StepRes.moved l2 sp) :
    good_laser l2 = true ∧ ∀ s, sp = some s → good_laser s = true := by
  rcases laser_step_cases g l l2 sp h with ⟨⟨a, b, ha, hb, rfl⟩, hsp⟩
  rcases (good_laser_spec l).mp hgood with ⟨hm, hvx, hvy⟩
  have hneg : ∀ v : Int, v = 1 ∨ v = -1 → -v = 1 ∨ -v = -1 := by
    rintro v (rfl | rfl) <;> decide
  have hva : a = 1 ∨ a = -1 := by
    rcases ha with rfl | rfl
    · exact hvx
    · exact hneg _ hvx
  have hvb : b = 1 ∨ b = -1 := by
    rcases hb with rfl | rfl
    · exact hvy
    · exact hneg _ hvy
  constructor
  · refine (good_laser_spec _).mpr ⟨?_, hva, hvb⟩
    show (l.x + a + (l.y + b)) % 2 = 1
    rcases hva with rfl | rfl <;> rcases hvb with rfl | rfl <;> omega
  · intro s hs
    rcases hsp s hs with rfl | rfl
    · exact (good_laser_spec _).mpr ⟨hm, hneg _ hvx, hvy⟩
    · exact (good_laser_spec _).mpr ⟨hm, hvx, hneg _ hvy⟩

/-! ### C6: the two inspected neighbours -/

/-- C6 (amended): on a parity-respecting lattice, a laser with exactly one
odd coordinate and diagonal direction inspects one neighbour with two odd
coordinates — the block-slot sublattice of `read_bff_grid` — while the
other neighbour has two even coordinates and holds the fixed interstitial
`'none'` block; the two neighbours are never both block slots, and the
invariant is preserved by every `moved` step, spawned lasers included.
The original claim called the block-slot neighbour "the one whose
coordinates form an odd/even pair", which `spec_C6_counterexample`
refutes. -/
theorem spec_C6_parity (g : GridRep) (l : Laser)
    (hg : parity_layout g = true) (hl : good_laser l = true)
    (hbx : is_within_bounds g (l.x + l.vx) l.y = true)
    (hby : is_within_bounds g l.x (l.y + l.vy) = true) :
    ((odd_odd (l.x + l.vx, l.y) = true ∧ even_even (l.x, l.y + l.vy) = true ∧
        get_block g l.x (l.y + l.vy) = noneBlock) ∨
      (odd_odd (l.x, l.y + l.vy) = true ∧ even_even (l.x + l.vx, l.y) = true ∧
        get_block g (l.x + l.vx) l.y = noneBlock)) ∧
    ¬ (odd_odd (l.x + l.vx, l.y) = true ∧ odd_odd (l.x, l.y + l.vy) = true) ∧
    (∀ (l2 : Laser) (sp : Option Laser),
      laser_step g l = StepRes.moved l2 sp →
      good_laser l2 = true ∧ ∀ s, sp = some s → good_laser s = true) := by
  rcases (good_laser_spec l).mp hl with ⟨hm, hvx, hvy⟩
  rcases neighbor_parity l.x l.y l.vx l.vy hm hvx hvy with ⟨hcases, hmx, hmy⟩
  refine ⟨?_, ?_, fun l2 sp hstep => step_good g l l2 sp hl hstep⟩
  · rcases hcases with ⟨h1, h2, h3⟩ | ⟨h1, h2, h3⟩
    · exact Or.inl ⟨h1, h2, parity_none g _ _ hg hby (by simp [h3])⟩
    · exact Or.inr ⟨h1, h2, parity_none g _ _ hg hbx (by simp [h3])⟩
  · rintro ⟨ha, hb2⟩
    rcases hcases with ⟨_, _, h3⟩ | ⟨_, _, h3⟩
    · rw [h3] at hb2; cases hb2
    · rw [h3] at ha; cases ha

/-- C6 counterexample: at the first step of the emitter `(1,0)` dir
`(1,1)` on the parsed 1-cell lattice, the inspected neighbours are
`(2,0)` and `(1,1)`; the one addressing the block slot (the `'o'` cell)
is `(1,1)`, whose coordinates are both odd — not an odd/even (mixed
parity) pair as the claim states — while `(2,0)` is an even/even
interstitial `'none'` cell, and the step takes the empty-neighbour
branch. -/
theorem spec_C6_counterexample :
    good_laser ⟨1, 0, 1, 1⟩ = true ∧
    parity_layout (read_bff_grid [['o']]) = true ∧
    is_within_bounds (read_bff_grid [['o']]) 2 0 = true ∧
    is_within_bounds (read_bff_grid [['o']]) 1 1 = true ∧
    get_cell (read_bff_grid [['o']]) 1 1 = ⟨BlockType.empty, false⟩ ∧
    get_cell (read_bff_grid [['o']]) 2 0 = noneBlock ∧
    mixed_parity (2, 0) = false ∧ mixed_parity (1, 1) = false ∧
    laser_step (read_bff_grid [['o']]) ⟨1, 0, 1, 1⟩ =
      StepRes.moved ⟨2, 1, 1, 1⟩ Option.none := by
  decide

/-- C6 witness: the amended dichotomy at the same concrete lattice and
emitter. -/
theorem spec_C6_witness :
    ((odd_odd (1 + 1, 0) = true ∧ even_even (1, 0 + 1) = true ∧
        get_block (read_bff_grid [['o']]) 1 (0 + 1) = noneBlock) ∨
      (odd_odd (1, 0 + 1) = true ∧ even_even (1 + 1, 0) = true ∧
        get_block (read_bff_grid [['o']]) (1 + 1) 0 = noneBlock)) ∧
    ¬ (odd_odd (1 + 1, 0) = true ∧ odd_odd (1, 0 + 1) = true) ∧
    (∀ (l2 : Laser) (sp : Option Laser),
      laser_step (read_bff_grid [['o']]) ⟨1, 0, 1, 1⟩ = StepRes.moved l2 sp →
      good_laser l2 = true ∧ ∀ s, sp = some s → good_laser s = true) :=
  spec_C6_parity (read_bff_grid [['o']]) ⟨1, 0, 1, 1⟩ (by decide) (by decide)
    (by decide) (by decide)

/-! ### C4: the refraction branches -/

/-- C4: on a parity-respecting lattice, when the X neighbour of a stepping
laser holds a `REFRACT` block the step spawns a new laser at the
original's pre-step position with `vx` negated and `vy` unchanged while
the original moves on in its unchanged direction; symmetrically for the Y
neighbour with `vy` negated; and `process_laser_paths` appends every
spawned laser of the traced path to the back of the work queue. -/
theorem spec_C4_refract (g : GridRep) (l : Laser)
    (hg : parity_layout g = true) (hl : good_laser l = true)
    (hbx : is_within_bounds g (l.x + l.vx) l.y = true)
    (hby : is_within_bounds g l.x (l.y + l.vy) = true) :
    ((get_block g (l.x + l.vx) l.y).block_type = BlockType.refract →
      laser_step g l = StepRes.moved ⟨l.x + l.vx, l.y + l.vy, l.vx, l.vy⟩
        (some ⟨l.x, l.y, -l.vx, l.vy⟩)) ∧
    ((get_block g l.x (l.y + l.vy)).block_type = BlockType.refract →
      laser_step g l = StepRes.moved ⟨l.x + l.vx, l.y + l.vy, l.vx, l.vy⟩
        (some ⟨l.x, l.y, l.vx, -l.vy⟩)) ∧
    (∀ (fuel : Nat) (rest : List Laser) (hit : List Pos),
      process_laser_paths (fuel + 1) g (l :: rest) hit =
        process_laser_paths fuel
          (paint_grid g (calculate_laser_path g l).1)
          (rest ++ (calculate_laser_path g l).2)
          (hit ++ (calculate_laser_path g l).1.filter
            (fun p => is_within_bounds g p.1 p.2))) := by
  rcases (good_laser_spec l).mp hl with ⟨hm, hvx, hvy⟩
  rcases neighbor_parity l.x l.y l.vx l.vy hm hvx hvy with ⟨hcases, hmx, hmy⟩
  refine ⟨?_, ?_, fun fuel rest hit => rfl⟩
  · intro hxr
    have hyb : get_block g l.x (l.y + l.vy) = noneBlock := by
      rcases hcases with ⟨h1, h2, h3⟩ | ⟨h1, h2, h3⟩
      · exact parity_none g _ _ hg hby (by simp [h3])
      · have hn := parity_none g (l.x + l.vx) l.y hg hbx (by simp [h3])
        rw [hn] at hxr
        cases hxr
    unfold laser_step
    rw [if_neg (not_not_intro hbx), if_neg (not_not_intro hby),
      if_neg (fun hc : _ = BlockType.reflect => by rw [hc] at hxr; cases hxr),
      if_neg (fun hc : _ = BlockType.reflect => by rw [hyb] at hc; cases hc),
      if_neg ?hopq, if_pos hxr]
    case hopq =>
      rintro (hc | hc)
      · rw [hc] at hxr; cases hxr
      · rw [hyb] at hc; cases hc
    rfl
  · intro hyr
    have hxb : get_block g (l.x + l.vx) l.y = noneBlock := by
      rcases hcases with ⟨h1, h2, h3⟩ | ⟨h1, h2, h3⟩
      · have hn := parity_none g l.x (l.y + l.vy) hg hby (by simp [h3])
        rw [hn] at hyr
        cases hyr
      · exact parity_none g _ _ hg hbx (by simp [h3])
    unfold laser_step
    rw [if_neg (not_not_intro hbx), if_neg (not_not_intro hby),
      if_neg (fun hc : _ = BlockType.reflect => by rw [hxb] at hc; cases hc),
      if_neg (fun hc : _ = BlockType.reflect => by rw [hc] at hyr; cases hyr),
      if_neg ?hopq2, if_neg (fun hc : _ = BlockType.refract => by
        rw [hxb] at hc; cases hc), if_pos hyr]
    case hopq2 =>
      rintro (hc | hc)
      · rw [hxb] at hc; cases hc
      · rw [hc] at hyr; cases hyr
    rfl

/-- C4 witness: on the parsed 1-cell `C` lattice the laser `(0,1)` dir
`(1,1)` sees the refractor as its X neighbour: the spawn is at `(0,1)`
with direction `(-1,1)` and the original steps to `(1,2)` unchanged. -/
theorem spec_C4_witness :
    laser_step (read_bff_grid [['C']]) ⟨0, 1, 1, 1⟩ =
      StepRes.moved ⟨0 + 1, 1 + 1, 1, 1⟩ (some ⟨0, 1, -1, 1⟩) :=
  (spec_C4_refract (read_bff_grid [['C']]) ⟨0, 1, 1, 1⟩ (by decide) (by decide)
    (by decide) (by decide)).1 (by decide)

/-! ### C8: the visited set does not depend on processing order

The trace painting only writes cells at mixed-parity positions, while the
stepping rules only read cells at non-mixed positions, so on intended
puzzles (emitters with exactly one odd coordinate and diagonal
directions, spec section 3) every laser's trace and spawns are a pure
function of its state and the initial grid.  `agree_on_pure` captures the
grids reachable by painting: same dimensions and the same blocks on all
in-range non-mixed cells. -/

def agree_on_pure (g g2 : GridRep) : Prop :=
  g2.length = g.length ∧
  ((g2.headD []) : List Block).length = ((g.headD []) : List Block).length ∧
  ∀ p : Pos, is_within_bounds g p.1 p.2 = true → mixed_parity p = false →
    get_block g2 p.1 p.2 = get_block g p.1 p.2

theorem agree_refl (g : GridRep) : agree_on_pure g g :=
  ⟨rfl, rfl, fun _ _ _ => rfl⟩

theorem agree_trans (g g1 g2 : GridRep) (h1 : agree_on_pure g g1)
    (h2 : agree_on_pure g1 g2) : agree_on_pure g g2 := by
  obtain ⟨a1, b1, c1⟩ := h1
  obtain ⟨a2, b2, c2⟩ := h2
  refine ⟨a2.trans a1, b2.trans b1, fun p hb hm => ?_⟩
  have hb1 : is_within_bounds g1 p.1 p.2 = true := by
    rw [bounds_eq_of_dims g g1 a1 b1]
    exact hb
  rw [c2 p hb1 hm, c1 p hb hm]

theorem laser_step_agree (g g2 : GridRep) (l : Laser)
    (hag : agree_on_pure g g2) (hl : good_laser l = true) :
    laser_step g2 l = laser_step g l := by
  obtain ⟨hlen, hw, hcell⟩ := hag
  rcases (good_laser_spec l).mp hl with ⟨hm, hvx, hvy⟩
  rcases neighbor_parity l.x l.y l.vx l.vy hm hvx hvy with ⟨_, hmx, hmy⟩
  have hbx := bounds_eq_of_dims g g2 hlen hw (l.x + l.vx) l.y
  have hby := bounds_eq_of_dims g g2 hlen hw l.x (l.y + l.vy)
  unfold laser_step
  rw [hbx, hby]
  by_cases h1 : is_within_bounds g (l.x + l.vx) l.y = true
  · by_cases h2 : is_within_bounds g l.x (l.y + l.vy) = true
    · rw [hcell (l.x + l.vx, l.y) h1 hmx, hcell (l.x, l.y + l.vy) h2 hmy]
    · rw [if_neg (not_not_intro h1), if_neg (not_not_intro h1), if_pos h2,
        if_pos h2]
  · rw [if_pos h1, if_pos h1]

theorem trace_loop_halt (g : GridRep) (n : Nat) (l : Laser) (acc : List Pos)
    (sp : List Laser) (h : laser_step g l = StepRes.halt) :
    trace_loop g (n + 1) l acc sp = (acc, sp) := by
  rw [trace_loop, h]

theorem trace_loop_stuck (g : GridRep) (n : Nat) (l : Laser) (acc : List Pos)
    (sp : List Laser) (h : laser_step g l = StepRes.stuck) :
    trace_loop g (n + 1) l acc sp =
      if l.vx = 0 ∧ l.vy = 0 then (acc, sp) else trace_loop g n l acc sp := by
  rw [trace_loop, h]

theorem trace_loop_moved (g : GridRep) (n : Nat) (l : Laser) (acc : List Pos)
    (sp : List Laser) (l2 : Laser) (spawn : Option Laser)
    (h : laser_step g l = StepRes.moved l2 spawn) :
    trace_loop g (n + 1) l acc sp =
      if l2.vx = 0 ∧ l2.vy = 0 then
        (acc ++ [(l2.x, l2.y)], sp ++ spawn.toList)
      else trace_loop g n l2 (acc ++ [(l2.x, l2.y)]) (sp ++ spawn.toList) := by
  rw [trace_loop, h]

theorem trace_loop_agree (g g2 : GridRep) (hag : agree_on_pure g g2) :
    ∀ (n : Nat) (l : Laser) (acc : List Pos) (sp : List Laser),
      good_laser l = true →
      trace_loop g2 n l acc sp = trace_loop g n l acc sp
  | 0, l, acc, sp, _ => rfl
  | n+1, l, acc, sp, hl => by
    have hs := laser_step_agree g g2 l hag hl
    cases h : laser_step g l with
    | halt => rw [trace_loop_halt g2 n l acc sp (hs.trans h),
        trace_loop_halt g n l acc sp h]
    | stuck =>
      rw [trace_loop_stuck g2 n l acc sp (hs.trans h),
        trace_loop_stuck g n l acc sp h]
      by_cases hv : l.vx = 0 ∧ l.vy = 0
      · rw [if_pos hv, if_pos hv]
      · rw [if_neg hv, if_neg hv]
        exact trace_loop_agree g g2 hag n l acc sp hl
    | moved l2 spawn =>
      rw [trace_loop_moved g2 n l acc sp l2 spawn (hs.trans h),
        trace_loop_moved g n l acc sp l2 spawn h]
      by_cases hv : l2.vx = 0 ∧ l2.vy = 0
      · rw [if_pos hv, if_pos hv]
      · rw [if_neg hv, if_neg hv]
        exact trace_loop_agree g g2 hag n l2 _ _ (step_good g l l2 spawn hl h).1

theorem trace_loop_acc_mixed (g : GridRep) :
    ∀ (n : Nat) (l : Laser) (acc : List Pos) (sp : List Laser),
      good_laser l = true → (∀ p ∈ acc, mixed_parity p = true) →
      ∀ p ∈ (trace_loop g n l acc sp).1, mixed_parity p = true
  | 0, l, acc, sp, _, hacc => hacc
  | n+1, l, acc, sp, hl, hacc => by
    cases h : laser_step g l with
    | halt => rw [trace_loop_halt g n l acc sp h]; exact hacc
    | stuck =>
      rw [trace_loop_stuck g n l acc sp h]
      by_cases hv : l.vx = 0 ∧ l.vy = 0
      · rw [if_pos hv]; exact hacc
      · rw [if_neg hv]
        exact trace_loop_acc_mixed g n l acc sp hl hacc
    | moved l2 spawn =>
      have hl2 := (step_good g l l2 spawn hl h).1
      have hm2 : mixed_parity (l2.x, l2.y) = true := by
        rcases (good_laser_spec l2).mp hl2 with ⟨hm2, _, _⟩
        simp [mixed_parity, hm2]
      have hacc2 : ∀ p ∈ acc ++ [(l2.x, l2.y)], mixed_parity p = true := by
        intro p hp
        rcases List.mem_append.mp hp with hp | hp
        · exact hacc p hp
        · rcases List.mem_singleton.mp hp with rfl
          exact hm2
      rw [trace_loop_moved g n l acc sp l2 spawn h]
      by_cases hv : l2.vx = 0 ∧ l2.vy = 0
      · rw [if_pos hv]; exact hacc2
      · rw [if_neg hv]
        exact trace_loop_acc_mixed g n l2 _ _ hl2 hacc2

theorem trace_loop_spawn_good (g : GridRep) :
    ∀ (n : Nat) (l : Laser) (acc : List Pos) (sp : List Laser),
      good_laser l = true → (∀ s ∈ sp, good_laser s = true) →
      ∀ s ∈ (trace_loop g n l acc sp).2, good_laser s = true
  | 0, l, acc, sp, _, hsp => hsp
  | n+1, l, acc, sp, hl, hsp => by
    cases h : laser_step g l with
    | halt => rw [trace_loop_halt g n l acc sp h]; exact hsp
    | stuck =>
      rw [trace_loop_stuck g n l acc sp h]
      by_cases hv : l.vx = 0 ∧ l.vy = 0
      · rw [if_pos hv]; exact hsp
      · rw [if_neg hv]
        exact trace_loop_spawn_good g n l acc sp hl hsp
    | moved l2 spawn =>
      have hstep := step_good g l l2 spawn hl h
      have hsp2 : ∀ s ∈ sp ++ spawn.toList, good_laser s = true := by
        intro s hs
        rcases List.mem_append.mp hs with hs | hs
        · exact hsp s hs
        · cases spawn with
          | none => cases hs
          | some s2 =>
            rcases List.mem_singleton.mp hs with rfl
            exact hstep.2 _ rfl
      rw [trace_loop_moved g n l acc sp l2 spawn h]
      by_cases hv : l2.vx = 0 ∧ l2.vy = 0
      · rw [if_pos hv]; exact hsp2
      · rw [if_neg hv]
        exact trace_loop_spawn_good g n l2 _ _ hstep.1 hsp2

theorem calc_agree (g g2 : GridRep) (hag : agree_on_pure g g2) (l : Laser)
    (hl : good_laser l = true) :
    calculate_laser_path g2 l = calculate_laser_path g l :=
  trace_loop_agree g g2 hag MAX_STEPS l _ _ hl

theorem calc_trace_mixed (g : GridRep) (l : Laser) (hl : good_laser l = true) :
    ∀ p ∈ (calculate_laser_path g l).1, mixed_parity p = true := by
  apply trace_loop_acc_mixed g MAX_STEPS l _ _ hl
  intro p hp
  rcases List.mem_singleton.mp hp with rfl
  rcases (good_laser_spec l).mp hl with ⟨hm, _, _⟩
  simp [mixed_parity, hm]

theorem calc_spawn_good (g : GridRep) (l : Laser) (hl : good_laser l = true) :
    ∀ s ∈ (calculate_laser_path g l).2, good_laser s = true :=
  trace_loop_spawn_good g MAX_STEPS l _ _ hl (fun s hs => by cases hs)

theorem paint_cell_length (g : GridRep) (p : Pos) :
    (paint_cell g p).length = g.length := by
  unfold paint_cell
  split
  · split
    · exact length_set_block g p.1 p.2 laserBlock
    · rfl
  · rfl

theorem paint_cell_width (g : GridRep) (p : Pos) :
    (((paint_cell g p).headD []) : List Block).length =
      ((g.headD []) : List Block).length := by
  unfold paint_cell
  split
  · split
    · exact width_set_block g p.1 p.2 laserBlock
    · rfl
  · rfl

theorem paint_cell_agree_step (g g2 : GridRep) (p : Pos)
    (hag : agree_on_pure g g2) (hp : mixed_parity p = true) :
    agree_on_pure g (paint_cell g2 p) := by
  obtain ⟨hlen, hw, hcell⟩ := hag
  refine ⟨(paint_cell_length g2 p).trans hlen,
    (paint_cell_width g2 p).trans hw, ?_⟩
  intro q hbq hmq
  unfold paint_cell
  by_cases hbp : is_within_bounds g2 p.1 p.2 = true
  · rw [if_pos hbp]
    by_cases htype : (get_block g2 p.1 p.2).block_type = BlockType.empty ∨
        (get_block g2 p.1 p.2).block_type = BlockType.none
    · rw [if_pos htype]
      rcases get_cell_set_block_cases g2 p laserBlock q.1.toNat q.2.toNat with
        hsame | ⟨hq1, hq2, _⟩
      · show get_cell (set_block g2 p.1 p.2 laserBlock) q.1.toNat q.2.toNat = _
        rw [hsame]
        exact hcell q hbq hmq
      · exfalso
        rcases bounds_spec g q.1 q.2 hbq with ⟨hq10, _, hq20, _⟩
        rcases bounds_spec g2 p.1 p.2 hbp with ⟨hp10, _, hp20, _⟩
        have h1 : q.1 = p.1 := by omega
        have h2 : q.2 = p.2 := by omega
        have hqp : q = p := Prod.ext h1 h2
        rw [hqp, hp] at hmq
        cases hmq
    · rw [if_neg htype]
      exact hcell q hbq hmq
  · rw [if_neg hbp]
    exact hcell q hbq hmq

theorem paint_grid_agree :
    ∀ (ps : List Pos) (g g2 : GridRep), agree_on_pure g g2 →
      (∀ p ∈ ps, mixed_parity p = true) →
      agree_on_pure g (paint_grid g2 ps)
  | [], _, _, hag, _ => hag
  | p :: ps, g, g2, hag, hps =>
    paint_grid_agree ps g (paint_cell g2 p)
      (paint_cell_agree_step g g2 p hag (hps p (List.mem_cons_self p ps)))
      (fun q hq => hps q (List.mem_cons_of_mem p hq))

/-- The big-step meaning of the work-queue loop: processing the queue in
FIFO order with trace and spawns taken on the initial grid `g0` (valid on
intended puzzles by `trace_loop_agree`), producing the concatenated
in-bounds hit lists.  One constructor application is one popped laser. -/
inductive ProcN (g0 : GridRep) : Nat → List Laser → List Pos → Prop where
  | nil : ProcN g0 0 [] []
  | step {n : Nat} {l : Laser} {Q : List Laser} {V : List Pos} :
      ProcN g0 n (Q ++ (calculate_laser_path g0 l).2) V →
      ProcN g0 (n + 1) (l :: Q)
        (((calculate_laser_path g0 l).1.filter
          (fun p => is_within_bounds g0 p.1 p.2)) ++ V)

theorem procn_det (g0 : GridRep) {n : Nat} {Q : List Laser} {V : List Pos}
    (h : ProcN g0 n Q V) :
    ∀ {n2 : Nat} {V2 : List Pos}, ProcN g0 n2 Q V2 → V = V2 := by
  induction h with
  | nil =>
    intro n2 V2 h2
    cases h2
    rfl
  | step h ih =>
    intro n2 V2 h2
    cases h2 with
    | step h2q => rw [ih h2q]

theorem perm_swap_blocks {α : Type} (x y z : List α) :
    (x ++ (y ++ z)).Perm (y ++ (x ++ z)) := by
  rw [← List.append_assoc, ← List.append_assoc]
  exact List.perm_append_comm.append_right z

theorem perm_append_swap_right {α : Type} (x y z : List α) :
    ((x ++ y) ++ z).Perm ((x ++ z) ++ y) := by
  rw [List.append_assoc, List.append_assoc]
  exact List.Perm.append_left x List.perm_append_comm

theorem procn_perm_insert (g0 : GridRep) :
    ∀ n : Nat,
      (∀ (l : Laser) (A B : List Laser) (V : List Pos),
        ProcN g0 n (l :: (A ++ B)) V →
        ∃ V2, ProcN g0 n (A ++ l :: B) V2 ∧ V.Perm V2) ∧
      (∀ (Q Q2 : List Laser) (V : List Pos),
        ProcN g0 n Q V → Q.Perm Q2 →
        ∃ V2, ProcN g0 n Q2 V2 ∧ V.Perm V2) := by
  intro n
  induction n using Nat.strong_induction_on with
  | _ n IH =>
    have hins : ∀ (l : Laser) (A B : List Laser) (V : List Pos),
        ProcN g0 n (l :: (A ++ B)) V →
        ∃ V2, ProcN g0 n (A ++ l :: B) V2 ∧ V.Perm V2 := by
      intro l A B V h
      cases A with
      | nil => exact ⟨V, h, List.Perm.refl V⟩
      | cons a A2 =>
        cases h with
        | step h1 =>
          rw [List.cons_append] at h1
          cases h1 with
          | step h2 =>
            have hp := perm_append_swap_right (A2 ++ B)
              (calculate_laser_path g0 l).2 (calculate_laser_path g0 a).2
            rcases (IH _ (by omega)).2 _ _ _ h2 hp with ⟨W3, h3, hW3⟩
            have h4 := @ProcN.step g0 _ _ _ _ h3
            rw [List.append_assoc] at h4
            rcases (IH _ (by omega)).1 l A2
              (B ++ (calculate_laser_path g0 a).2) _ h4 with ⟨V5, h5, hV5⟩
            have hq : A2 ++ l :: (B ++ (calculate_laser_path g0 a).2) =
                (A2 ++ l :: B) ++ (calculate_laser_path g0 a).2 := by simp
            rw [hq] at h5
            have h6 := @ProcN.step g0 _ _ _ _ h5
            refine ⟨_, h6, ?_⟩
            refine (perm_swap_blocks _ _ _).trans ?_
            refine (List.Perm.append_left _ ?_)
            exact (List.Perm.append_left _ hW3).trans hV5
    have hperm : ∀ (Q Q2 : List Laser) (V : List Pos),
        ProcN g0 n Q V → Q.Perm Q2 →
        ∃ V2, ProcN g0 n Q2 V2 ∧ V.Perm V2 := by
      intro Q Q2 V h hQ
      cases h with
      | nil =>
        have hQ2 : Q2 = [] := hQ.symm.eq_nil
        subst hQ2
        exact ⟨[], ProcN.nil, List.Perm.refl []⟩
      | step h1 =>
        rename_i m l R W
        have hl2 : l ∈ Q2 := hQ.subset (List.mem_cons_self _ _)
        rcases List.append_of_mem hl2 with ⟨A, B, rfl⟩
        have hab : (A ++ B).Perm R := by
          have h2 : (l :: (A ++ B)).Perm (l :: R) :=
            List.perm_middle.symm.trans hQ.symm
          exact h2.cons_inv
        rcases (IH _ (by omega)).2 _
          ((A ++ B) ++ (calculate_laser_path g0 l).2) _ h1
          (hab.symm.append_right _) with ⟨W2, h2, hW2⟩
        have h3 := @ProcN.step g0 _ _ _ _ h2
        rcases hins l A B _ h3 with ⟨V2, h4, hV2⟩
        exact ⟨V2, h4, (List.Perm.append_left _ hW2).trans hV2⟩
    exact ⟨hins, hperm⟩

theorem process_to_procn (g0 : GridRep) :
    ∀ (fuel : Nat) (g : GridRep) (Q : List Laser) (hit : List Pos)
      (r : GridRep × List Pos),
      agree_on_pure g0 g → (∀ l ∈ Q, good_laser l = true) →
      process_laser_paths fuel g Q hit = some r →
      ∃ n Δ, ProcN g0 n Q Δ ∧ r.2 = hit ++ Δ
  | fuel, g, [], hit, r, hag, hgood, h => by
    have heq : process_laser_paths fuel g [] hit = some (g, hit) := by
      cases fuel <;> rfl
    rw [heq] at h
    have hr : (g, hit) = r := Option.some.inj h
    exact ⟨0, [], ProcN.nil, by rw [← hr, List.append_nil]⟩
  | 0, g, q :: Q, hit, r, _, _, h => by cases h
  | fuel+1, g, q :: Q, hit, r, hag, hgood, h => by
    have hq := hgood q (List.mem_cons_self q Q)
    have hcalc : calculate_laser_path g q = calculate_laser_path g0 q :=
      calc_agree g0 g hag q hq
    have h2 : process_laser_paths fuel
        (paint_grid g (calculate_laser_path g q).1)
        (Q ++ (calculate_laser_path g q).2)
        (hit ++ (calculate_laser_path g q).1.filter
          (fun p => is_within_bounds g p.1 p.2)) = some r := h
    have hfil : (calculate_laser_path g q).1.filter
        (fun p => is_within_bounds g p.1 p.2) =
        (calculate_laser_path g0 q).1.filter
          (fun p => is_within_bounds g0 p.1 p.2) := by
      rw [hcalc]
      exact List.filter_congr (fun x _ => by
        rw [bounds_eq_of_dims g0 g hag.1 hag.2.1 x.1 x.2])
    rw [hfil] at h2
    rw [hcalc] at h2
    have hmixed : ∀ p ∈ (calculate_laser_path g0 q).1,
        mixed_parity p = true := calc_trace_mixed g0 q hq
    have hag2 : agree_on_pure g0
        (paint_grid g (calculate_laser_path g0 q).1) :=
      paint_grid_agree _ g0 g hag hmixed
    have hgood2 : ∀ l ∈ Q ++ (calculate_laser_path g0 q).2,
        good_laser l = true := by
      intro l hl
      rcases List.mem_append.mp hl with hl | hl
      · exact hgood l (List.mem_cons_of_mem q hl)
      · exact calc_spawn_good g0 q hq l hl
    rcases process_to_procn g0 fuel _ _ _ r hag2 hgood2 h2 with ⟨n, Δ, hn, hr⟩
    refine ⟨n + 1, _, ProcN.step hn, ?_⟩
    rw [hr, List.append_assoc]

/-- C8: on intended puzzles — every emitter on a mixed-parity cell with a
diagonal direction, as the spec's data-model invariants require — the set
of hit points produced by `process_laser_paths` does not depend on the
order in which the lasers are processed: any two terminating runs over
permuted emitter lists agree on membership of every point.  The ordering
remains observable only in the per-laser traces. -/
theorem spec_C8_order_invariance (g : GridRep) (L L2 : List Laser)
    (f f2 : Nat)
    (hgood : ∀ l ∈ L, good_laser l = true)
    (hperm : L.Perm L2)
    (h1 : (process_laser_paths f g L []).isSome = true)
    (h2 : (process_laser_paths f2 g L2 []).isSome = true)
    (p : Pos) :
    (p ∈ hits_of (process_laser_paths f g L [])) ↔
      p ∈ hits_of (process_laser_paths f2 g L2 []) := by
  rcases Option.isSome_iff_exists.mp h1 with ⟨r1, hr1⟩
  rcases Option.isSome_iff_exists.mp h2 with ⟨r2, hr2⟩
  have hgood2 : ∀ l ∈ L2, good_laser l = true := fun l hl =>
    hgood l (hperm.symm.subset hl)
  rcases process_to_procn g f g L [] r1 (agree_refl g) hgood hr1 with
    ⟨n1, D1, hp1, he1⟩
  rcases process_to_procn g f2 g L2 [] r2 (agree_refl g) hgood2 hr2 with
    ⟨n2, D2, hp2, he2⟩
  rcases (procn_perm_insert g n1).2 L L2 D1 hp1 hperm with ⟨D3, hp3, hD13⟩
  have hD32 : D3 = D2 := procn_det g hp3 hp2
  rw [hr1, hr2]
  show p ∈ r1.2 ↔ p ∈ r2.2
  rw [he1, he2, List.nil_append, List.nil_append, ← hD32]
  exact hD13.mem_iff

/-- C8 witness: two emitters on the parsed 2-by-2 grid, processed in the
two orders; both runs terminate and agree on the sample point `(2,1)`. -/
theorem spec_C8_witness :
    ((2, 1) ∈ hits_of (process_laser_paths 5
      (read_bff_grid [['o', 'o'], ['o', 'o']])
      [⟨1, 0, 1, 1⟩, ⟨3, 0, -1, 1⟩] [])) ↔
    (2, 1) ∈ hits_of (process_laser_paths 5
      (read_bff_grid [['o', 'o'], ['o', 'o']])
      [⟨3, 0, -1, 1⟩, ⟨1, 0, 1, 1⟩] []) :=
  spec_C8_order_invariance (read_bff_grid [['o', 'o'], ['o', 'o']])
    [⟨1, 0, 1, 1⟩, ⟨3, 0, -1, 1⟩] [⟨3, 0, -1, 1⟩, ⟨1, 0, 1, 1⟩] 5 5
    (by decide) (List.Perm.swap _ _ _) (by decide) (by decide) (2, 1)
